import Mathlib

/-!
Verification of the wasmi translation core against its specification.

The development shallowly embeds the parts of the repository that the
claims refer to:

* `src/wasmi_v1/src/engine2/provider.rs` — the `ExecProvider` sign
  encoding and the deduplicating provider-slice arena;
* `src/wasmi_v1/src/engine2/code_map.rs` — the bump-allocating code map;
* `src/wasmi_v1/src/engine/func_builder/mod.rs` — the function builder
  (reachability tracking, drop-keep computation, operator translation).

Machine integers are modelled as `Nat`/`Int` with the overflow and
assertion checks of the source made explicit: any code path that panics
or hits a fatal assertion in Rust is modelled as returning `none`.
The helper modules of the function builder (value stack, control stack,
locals registry, instruction builder) are not part of the provided
sources; they are modelled from the specification, as marked on each
definition.
-/

/-! ## ExecProvider (engine2/provider.rs) -/

/-- Either a register or a constant input, encoded as a single signed
32-bit integer: non-negative values are register indices, negative
values encode a constant-table index `k` as `-(k+1)`.
From `ExecProvider(i32)` in `engine2/provider.rs`. -/
structure ExecProvider where
  inner : Int
  deriving DecidableEq, Repr

/-- Decoded form of an `ExecProvider`: register index or constant index,
mirroring `RegisterOrImmediate` with the `u16`/`u32` payloads of
`ExecRegister` and `ConstRef` represented as `Nat`. -/
inductive RegisterOrImmediate where
  | register (r : Nat)
  | immediate (k : Nat)
  deriving DecidableEq, Repr

/-- `ExecProvider::from_register`: the register's `u16` inner value is
cast `as u32 as i32`, which is exact for every `u16`. Register indices
are `u16`, so meaningful inputs satisfy `r < 65536`. -/
def ExecProvider.fromRegister (r : Nat) : ExecProvider :=
  ⟨(r : Int)⟩

/-- `ExecProvider::from_immediate`: asserts the constant index is below
`i32::MAX` (fatal otherwise, modelled as `none`) and stores
`-(index + 1)`. Inside the guard `wrapping_add(1)` cannot wrap, so the
arithmetic is exact. -/
def ExecProvider.fromImmediate (k : Nat) : Option ExecProvider :=
  if k < 2147483647 then some ⟨-((k : Int) + 1)⟩ else none

/-- `ExecProvider::decode`: negative payloads decode to the constant
index `abs(inner) - 1`; non-negative payloads are cast `as u16` (hence
reduced modulo 2^16) and decode to a register index. -/
def ExecProvider.decode (p : ExecProvider) : RegisterOrImmediate :=
  if p.inner < 0 then
    .immediate (p.inner.natAbs - 1)
  else
    .register (p.inner.toNat % 65536)

/-! ## Code map (engine2/code_map.rs)

The code map never inspects the instructions it stores, so the embedding
is polymorphic in the instruction type. -/

/-- A reference to a function body: offset of its first instruction in
the shared buffer and its instruction count. From `FuncBody` in
`engine2/code_map.rs` (both fields are `u32` in the source). -/
structure FuncBody where
  inst : Nat
  len : Nat
  deriving DecidableEq, Repr

/-- The shared instruction buffer of all allocated function bodies.
From `CodeMap` in `engine2/code_map.rs`. -/
structure CodeMap (α : Type) where
  insts : List α
  deriving DecidableEq, Repr

/-- The empty code map (`CodeMap::default`). -/
def CodeMap.empty {α : Type} : CodeMap α := ⟨[]⟩

/-- `CodeMap::alloc`: records the current buffer length as the new
body's first-instruction index, appends the instructions, and returns
the handle. The source asserts that the start index fits in `u32`
(`FirstInstr::from_usize`) and that the body length fits in `u32`
(the `try_into` with panic); both failures are modelled as `none`. -/
def CodeMap.alloc {α : Type} (m : CodeMap α) (l : List α) :
    Option (CodeMap α × FuncBody) :=
  if m.insts.length ≤ 4294967295 ∧ l.length ≤ 4294967295 then
    some (⟨m.insts ++ l⟩, ⟨m.insts.length, l.length⟩)
  else
    none

/-- `CodeMap::resolve`: slices the shared buffer at
`[first, first + len)`, panicking (modelled as `none`) when the handle
is out of range for this map. -/
def CodeMap.resolve {α : Type} (m : CodeMap α) (fb : FuncBody) :
    Option (List α) :=
  if fb.inst + fb.len ≤ m.insts.length then
    some ((m.insts.drop fb.inst).take fb.len)
  else
    none

/-- A sequence of successive `CodeMap::alloc` calls, returning the final
map together with the handle of each call in order. -/
def CodeMap.allocList {α : Type} (m : CodeMap α) :
    List (List α) → Option (CodeMap α × List FuncBody)
  | [] => some (m, [])
  | l :: ls => do
    let (m', fb) ← m.alloc l
    let (m'', fbs) ← m'.allocList ls
    pure (m'', fb :: fbs)

/-- Sum of the lengths of the first `i` allocated bodies: the start
offset of body `i` when allocation begins on an empty map. -/
def prefixLen {α : Type} (ls : List (List α)) (i : Nat) : Nat :=
  ((ls.take i).map List.length).sum

/-! ## Deduplicating provider-slice arena (engine2/provider.rs) -/

/-- A (first, length) pair of 16-bit indices into the arena's shared
provider buffer. From `ExecProviderSlice` in `engine2/provider.rs`. -/
structure ExecProviderSlice where
  first : Nat
  len : Nat
  deriving DecidableEq, Repr

/-- The deduplicating arena: a content-keyed map from provider sequences
to their slice handle, plus the shared backing buffer. The `scratch`
buffer of the source is cleared and refilled on every call and has no
observable state, so it is not modelled; the `BTreeMap` is modelled as
an association list with unique keys looked up by content equality.
From `DedupProviderSliceArena` in `engine2/provider.rs`. -/
structure DedupProviderSliceArena where
  dedup : List (List ExecProvider × ExecProviderSlice)
  providers : List ExecProvider
  deriving DecidableEq, Repr

/-- The empty arena (`DedupProviderSliceArena::default`). -/
def DedupProviderSliceArena.emptyArena : DedupProviderSliceArena := ⟨[], []⟩

/-- The body of `DedupProviderSliceArena::resolve`: slice the backing
buffer at `[first, first + len)`, panicking (modelled as `none`) when
out of range. -/
def resolveProviders (prov : List ExecProvider) (s : ExecProviderSlice) :
    Option (List ExecProvider) :=
  if s.first + s.len ≤ prov.length then
    some ((prov.drop s.first).take s.len)
  else
    none

/-- `DedupProviderSliceArena::resolve`. -/
def DedupProviderSliceArena.resolve (a : DedupProviderSliceArena)
    (s : ExecProviderSlice) : Option (List ExecProvider) :=
  resolveProviders a.providers s

/-- `DedupProviderSliceArena::alloc`: if the content is already a key of
the dedup map (`Entry::Occupied`) the stored handle is returned and the
arena is unchanged; otherwise (`Entry::Vacant`) the content is appended
to the backing buffer, the new handle is recorded under the content key
and returned. The `try_into` calls to `u16` panic (modelled as `none`)
when the start offset or length exceeds `u16::MAX`. -/
def DedupProviderSliceArena.alloc (a : DedupProviderSliceArena)
    (xs : List ExecProvider) :
    Option (DedupProviderSliceArena × ExecProviderSlice) :=
  match List.lookup xs a.dedup with
  | some s => some (a, s)
  | none =>
    if a.providers.length ≤ 65535 ∧ xs.length ≤ 65535 then
      let s : ExecProviderSlice := ⟨a.providers.length, xs.length⟩
      some (⟨(xs, s) :: a.dedup, a.providers ++ xs⟩, s)
    else
      none

/-- A sequence of successive `alloc` calls on the arena, returning the
final arena and each call's handle in order. -/
def DedupProviderSliceArena.allocList (a : DedupProviderSliceArena) :
    List (List ExecProvider) →
    Option (DedupProviderSliceArena × List ExecProviderSlice)
  | [] => some (a, [])
  | xs :: xss => do
    let (a', s) ← a.alloc xs
    let (a'', ss) ← a'.allocList xss
    pure (a'', s :: ss)

/-- Well-formedness of the arena: every recorded handle resolves (in
range) to its own key, and the dedup keys are pairwise distinct. -/
def DedupProviderSliceArena.WF (a : DedupProviderSliceArena) : Prop :=
  (∀ k s, (k, s) ∈ a.dedup → a.resolve s = some k) ∧
  a.dedup.Pairwise (fun e1 e2 => e1.1 ≠ e2.1)

/-! ## Function builder (engine/func_builder/mod.rs)

The helper modules of the function builder (control frames, control
stack, value stack, locals registry, instruction builder) and the
translation-level instruction set are not part of the provided sources;
they are modelled from the specification as marked below. The stacks
are lists with the head as the top of the stack. -/

/-- Wasm value types, from the external `wasmi_core` crate. -/
inductive ValueType where
  | i32
  | i64
  | f32
  | f64
  deriving DecidableEq, Repr

/-- Modelled from the spec (section 3): `DropKeep` is the pair of
stack-adjustment counts attached to every branch and return target; the
`new`/`new32` constructors of the source simply store the two counts. -/
structure DropKeep where
  drop : Nat
  keep : Nat
  deriving DecidableEq, Repr

/-- Modelled from the spec (section 3): a block type carries the
parameter and result types of a control region. The source stores an
index resolved through `ModuleResources`; the embedding carries the
resolved type lists directly, so `block_type().params(res)` and
`block_type().results(res)` become field accesses. -/
structure BlockType where
  params : List ValueType
  results : List ValueType
  deriving DecidableEq, Repr

/-- The kind of a control frame (`ControlFrameKind`), visible in the
sources through the exhaustive `Block | If | Loop` match of
`compute_drop_keep`. -/
inductive ControlFrameKind where
  | block
  | if_
  | loop
  deriving DecidableEq, Repr

/-- Modelled from the spec (section 3): a control frame records its
block type, its labels (an end label; `if` also an else label; a loop
its header label instead) and the value-stack height at entry.
An unreachable frame records only the original kind, the block type
and the entry height: the `UnreachableControlFrame::new` calls in
`mod.rs` pass no label, so unreachable frames have none. -/
inductive ControlFrame where
  | block (bt : BlockType) (endLabel : Nat) (height : Nat)
  | loop (bt : BlockType) (header : Nat) (height : Nat)
  | if_ (bt : BlockType) (endLabel : Nat) (elseLabel : Nat) (height : Nat)
  | unreachableFrame (kind : ControlFrameKind) (bt : BlockType) (height : Nat)
  deriving DecidableEq, Repr

/-- `ControlFrame::kind`: unreachable frames remember their original
kind so that else/end handling stays structurally correct. -/
def ControlFrame.kind : ControlFrame → ControlFrameKind
  | .block _ _ _ => .block
  | .loop _ _ _ => .loop
  | .if_ _ _ _ _ => .if_
  | .unreachableFrame k _ _ => k

/-- `ControlFrame::block_type`. -/
def ControlFrame.blockType : ControlFrame → BlockType
  | .block bt _ _ => bt
  | .loop bt _ _ => bt
  | .if_ bt _ _ _ => bt
  | .unreachableFrame _ bt _ => bt

/-- `ControlFrame::stack_height`. -/
def ControlFrame.stackHeight : ControlFrame → Nat
  | .block _ _ h => h
  | .loop _ _ h => h
  | .if_ _ _ _ h => h
  | .unreachableFrame _ _ h => h

/-- Modelled from the spec (sections 3 and 8): a frame "was reachable
when pushed" exactly when it is not an unreachable frame, since
reachable translation pushes block/loop/if frames and unreachable
translation pushes unreachable frames. -/
def ControlFrame.isReachable : ControlFrame → Bool
  | .unreachableFrame _ _ _ => false
  | _ => true

/-- `ControlFrame::end_label`: loops have no end label (they branch to
their header) and unreachable frames carry no label at all, so asking
for their end label is a fatal error (`none`). -/
def ControlFrame.endLabel? : ControlFrame → Option Nat
  | .block _ e _ => some e
  | .if_ _ e _ _ => some e
  | .loop _ _ _ => none
  | .unreachableFrame _ _ _ => none

/-- `ControlFrame::branch_destination`: the end label for blocks and
ifs, the header label for loops; fatal (`none`) for unreachable
frames. -/
def ControlFrame.branchDestination? : ControlFrame → Option Nat
  | .block _ e _ => some e
  | .if_ _ e _ _ => some e
  | .loop _ hd _ => some hd
  | .unreachableFrame _ _ _ => none

/-- Modelled from the spec: a constant value; the translator only ever
inspects its type, so numeric payloads are carried as raw integers
(float constants as their bit patterns). -/
inductive Value where
  | i32 (bits : Int)
  | i64 (bits : Int)
  | f32 (bits : Int)
  | f64 (bits : Int)
  deriving DecidableEq, Repr

/-- `Value::value_type`. -/
def Value.valueType : Value → ValueType
  | .i32 _ => .i32
  | .i64 _ => .i64
  | .f32 _ => .f32
  | .f64 _ => .f64

/-- A branch target: destination position and the drop-keep to apply
(`Target` in the instruction set). -/
structure Target where
  dstPc : Nat
  dropKeep : DropKeep
  deriving DecidableEq, Repr

/-- Modelled from the spec: the translation-level instructions emitted
by `mod.rs`. The load, store and comparison families are collapsed to
one constructor each carrying the distinguishing data, since `mod.rs`
builds them through one generic routine per family. -/
inductive Instruction where
  | unreachable
  | br (t : Target)
  | brIfEqz (t : Target)
  | brIfNez (t : Target)
  | brTable (lenTargets : Nat)
  | brTableTarget (t : Target)
  | ret (dk : DropKeep)
  | call (funcIdx : Nat)
  | callIndirect (funcTypeIdx : Nat)
  | select
  | getLocal (localDepth : Nat)
  | setLocal (localDepth : Nat)
  | teeLocal (localDepth : Nat)
  | getGlobal (globalIdx : Nat)
  | setGlobal (globalIdx : Nat)
  | loadOp (t : ValueType) (offset : Nat)
  | storeOp (t : ValueType) (offset : Nat)
  | currentMemory
  | growMemory
  | constant (v : Value)
  | i32Eqz
  | cmpOp (t : ValueType) (code : Nat)
  deriving DecidableEq, Repr

/-- Modelled from the spec (section 4.3): a relocation request recorded
against an unresolved label; branch-table entries carry their arm index
so each arm is tracked independently (`Reloc` in `inst_builder.rs`). -/
inductive Reloc where
  | br (instIdx : Nat)
  | brTable (instIdx : Nat) (targetIdx : Nat)
  deriving DecidableEq, Repr

/-- Modelled from the spec (section 3): a label is unresolved (with its
pending relocations) until `resolve_label` fixes it to a position. -/
inductive LabelState where
  | unresolved (pending : List Reloc)
  | resolved (pc : Nat)
  deriving DecidableEq, Repr

/-- Modelled from the spec (section 4.3): the instruction builder
accumulates the linear instruction stream and the label table. -/
structure InstructionsBuilder where
  labels : List LabelState
  insts : List Instruction
  deriving DecidableEq, Repr

/-- `InstructionsBuilder::new_label`: allocates a fresh unresolved
label and returns its index. -/
def InstructionsBuilder.newLabel (b : InstructionsBuilder) :
    Nat × InstructionsBuilder :=
  (b.labels.length, ⟨b.labels ++ [.unresolved []], b.insts⟩)

/-- `InstructionsBuilder::current_pc`: the position the next emitted
instruction will occupy. -/
def InstructionsBuilder.currentPc (b : InstructionsBuilder) : Nat :=
  b.insts.length

/-- `InstructionsBuilder::push_inst`. -/
def InstructionsBuilder.pushInst (b : InstructionsBuilder)
    (i : Instruction) : InstructionsBuilder :=
  ⟨b.labels, b.insts ++ [i]⟩

/-- Patching a branching instruction's destination to a now-resolved
position (modelled from the spec, section 4.3). -/
def Instruction.updateDst (pc : Nat) : Instruction → Instruction
  | .br t => .br ⟨pc, t.dropKeep⟩
  | .brIfEqz t => .brIfEqz ⟨pc, t.dropKeep⟩
  | .brIfNez t => .brIfNez ⟨pc, t.dropKeep⟩
  | .brTableTarget t => .brTableTarget ⟨pc, t.dropKeep⟩
  | i => i

/-- Modelled from the spec (section 4.3): applying one relocation
patches the referencing instruction in place; a branch-table
relocation patches the arm's target record, which sits `target_idx + 1`
slots after the table header at `inst_idx`. Patching never changes the
number of instructions. -/
def applyReloc (pc : Nat) (insts : List Instruction) : Reloc → List Instruction
  | .br idx => insts.set idx ((insts.getD idx .unreachable).updateDst pc)
  | .brTable idx t =>
    insts.set (idx + 1 + t)
      ((insts.getD (idx + 1 + t) .unreachable).updateDst pc)

/-- `InstructionsBuilder::resolve_label`: fixes an unresolved label to
the current position and patches all its pending relocations; resolving
a label twice (or an unknown label) is a fatal error (`none`). -/
def InstructionsBuilder.resolveLabel (b : InstructionsBuilder)
    (lbl : Nat) : Option InstructionsBuilder :=
  match b.labels.get? lbl with
  | some (.unresolved pending) =>
    some ⟨b.labels.set lbl (.resolved b.currentPc),
      pending.foldl (applyReloc b.currentPc) b.insts⟩
  | _ => none

/-- `FunctionBuilder::try_resolve_label` (the `mod.rs` wrapper): the
reloc factory receives the current position, i.e. the position of the
referencing instruction about to be pushed. For an already-resolved
label the resolved position is returned; otherwise the relocation is
recorded and a placeholder destination 0 is returned, to be patched
when the label resolves (modelled from the spec, section 4.3). -/
def InstructionsBuilder.tryResolveLabel (b : InstructionsBuilder)
    (lbl : Nat) (mkReloc : Nat → Reloc) : Option (Nat × InstructionsBuilder) :=
  match b.labels.get? lbl with
  | some (.resolved pc) => some (pc, b)
  | some (.unresolved pending) =>
    some (0, ⟨b.labels.set lbl (.unresolved (pending ++ [mkReloc b.currentPc])),
      b.insts⟩)
  | none => none

/-- Modelled from the spec (section 2): the locals registry records the
declared local-variable types and their count; each `register_locals`
call adds `amount` locals of one type. -/
structure LocalsRegistry where
  groups : List (ValueType × Nat)
  deriving DecidableEq, Repr

/-- `LocalsRegistry::default`. -/
def LocalsRegistry.emptyRegistry : LocalsRegistry := ⟨[]⟩

/-- `LocalsRegistry::register_locals`. -/
def LocalsRegistry.registerLocals (r : LocalsRegistry) (vt : ValueType)
    (amount : Nat) : LocalsRegistry :=
  ⟨r.groups ++ [(vt, amount)]⟩

/-- `LocalsRegistry::len_registered`: the total number of registered
locals. -/
def LocalsRegistry.lenRegistered (r : LocalsRegistry) : Nat :=
  (r.groups.map Prod.snd).sum

/-- `LocalsRegistry::resolve_local`: the type of the local at the given
index, `none` when the index is out of range (a fatal error at the call
sites in `mod.rs`). -/
def LocalsRegistry.resolveLocalGo :
    List (ValueType × Nat) → Nat → Option ValueType
  | [], _ => none
  | (t, n) :: rest, i => if i < n then some t else
    LocalsRegistry.resolveLocalGo rest (i - n)

/-- `LocalsRegistry::resolve_local`. -/
def LocalsRegistry.resolveLocal (r : LocalsRegistry) (idx : Nat) :
    Option ValueType :=
  LocalsRegistry.resolveLocalGo r.groups idx

/-- Modelled from the spec (section 2): `ValueStack::pop1` on the
compile-time shadow stack; popping an empty stack is fatal (`none`). -/
def stackPop1 (s : List ValueType) : Option (ValueType × List ValueType) :=
  match s with
  | [] => none
  | t :: ts => some (t, ts)

/-- `ValueStack::pop3`, returning `(v0, v1, selector)` with the
selector topmost. -/
def stackPop3 (s : List ValueType) :
    Option ((ValueType × ValueType × ValueType) × List ValueType) :=
  match s with
  | sel :: v1 :: v0 :: rest => some ((v0, v1, sel), rest)
  | _ => none

/-- `ValueStack::top`; fatal (`none`) on an empty stack. -/
def stackTop (s : List ValueType) : Option ValueType :=
  s.head?

/-- `ValueStack::shrink_to`: keep only the bottommost `height`
entries. -/
def shrinkTo (height : Nat) (s : List ValueType) : List ValueType :=
  s.drop (s.length - height)

/-- The function builder (`FunctionBuilder` in `mod.rs`). The `engine`,
`func` and `res` fields of the source are handles for querying
immutable module metadata; the embedding carries the queried data
directly: the translated function's parameter and result types
(`res.get_type_of_func(func)`) and the module's global value types
(`res.get_type_of_global`). Both stacks have their top at the head. -/
structure FunctionBuilder where
  funcParams : List ValueType
  funcResults : List ValueType
  globals : List ValueType
  controlFrames : List ControlFrame
  valueStack : List ValueType
  instBuilder : InstructionsBuilder
  locals : LocalsRegistry
  reachable : Bool
  deriving DecidableEq, Repr

/-- `FunctionBuilder::new`: `register_func_body_block` allocates the
function body's end label and pushes the body `block` frame at stack
height 0; `register_func_params` then pushes each parameter onto the
emulated value stack and registers it (one at a time) in the locals
registry. -/
def mkFunctionBuilder (params results globals : List ValueType) :
    FunctionBuilder :=
  let ib0 : InstructionsBuilder := ⟨[], []⟩
  let lblIb := ib0.newLabel
  let bodyFrame := ControlFrame.block ⟨params, results⟩ lblIb.1 0
  { funcParams := params
    funcResults := results
    globals := globals
    controlFrames := [bodyFrame]
    valueStack := params.foldl (fun s t => t :: s) []
    instBuilder := lblIb.2
    locals := params.foldl
      (fun r t => r.registerLocals t 1) LocalsRegistry.emptyRegistry
    reachable := true }

/-- `FunctionBuilder::translate_locals`: registers `amount` locals of
the given type (always succeeds). -/
def FunctionBuilder.translateLocals (b : FunctionBuilder) (amount : Nat)
    (vt : ValueType) : FunctionBuilder :=
  { b with locals := b.locals.registerLocals vt amount }

/-- `FunctionBuilder::compute_drop_keep` (mod.rs lines 163-194): the
target frame is `nth_back(depth)`; `keep` is the result arity for
block/if kinds and the parameter arity for loop kinds; when the code is
unreachable `drop` is 0; otherwise `drop` is the height difference
minus `keep`, with the two fatal assertions of the source — strict
`origin_height < current_height` and strict `keep < height_diff` —
modelled as `none`. -/
def FunctionBuilder.computeDropKeep (b : FunctionBuilder) (depth : Nat) :
    Option DropKeep := do
  let frame ← b.controlFrames.get? depth
  let keep := match frame.kind with
    | .block | .if_ => frame.blockType.results.length
    | .loop => frame.blockType.params.length
  if b.reachable then
    let current := b.valueStack.length
    let origin := frame.stackHeight
    if origin < current then
      if keep < current - origin then
        pure ⟨current - origin - keep, keep⟩
      else
        none
    else
      none
  else
    pure ⟨0, keep⟩

/-- `FunctionBuilder::drop_keep_return` (mod.rs lines 202-220): the
drop-keep of a branch to the maximal depth, with all registered locals
and all parameters additionally dropped. -/
def FunctionBuilder.dropKeepReturn (b : FunctionBuilder) : Option DropKeep :=
  if b.controlFrames.isEmpty then
    none
  else do
    let maxDepth := b.controlFrames.length - 1
    let dk ← b.computeDropKeep maxDepth
    pure ⟨dk.drop + b.locals.lenRegistered + b.funcParams.length, dk.keep⟩

/-- `FunctionBuilder::relative_local_depth` (mod.rs lines 227-236):
`stack_height + len_params + len_locals - local_idx` with the `u32`
`checked_add`/`checked_sub` failures fatal (`none`). -/
def FunctionBuilder.relativeLocalDepth (b : FunctionBuilder)
    (localIdx : Nat) : Option Nat :=
  let sum := b.valueStack.length + b.funcParams.length +
    b.locals.lenRegistered
  if sum ≤ 4294967295 ∧ localIdx ≤ sum then some (sum - localIdx) else none

/-- `FunctionBuilder::acquire_target`: the branch destination label of
`nth_back(depth)` together with its drop-keep; fatal (`none`) on
unreachable target frames (which have no branch destination) or when
`compute_drop_keep` traps. -/
def FunctionBuilder.acquireTarget (b : FunctionBuilder) (depth : Nat) :
    Option (Nat × DropKeep) := do
  let frame ← b.controlFrames.get? depth
  let label ← frame.branchDestination?
  let dk ← b.computeDropKeep depth
  pure (label, dk)

/-- `FunctionBuilder::translate_if_reachable`: runs the translator only
when the current code is reachable; otherwise the state is returned
unchanged. -/
def FunctionBuilder.translateIfReachable (b : FunctionBuilder)
    (f : FunctionBuilder → Option FunctionBuilder) :
    Option FunctionBuilder :=
  if b.reachable then f b else some b

/-! ### Operator translation methods (mod.rs lines 251-1163)

The `debug_assert!` macros of the source are disabled in release builds
and are not modelled; `assert!`/`assert_eq!` and the implicit panics of
stack and registry accesses are modelled as `none`. -/

/-- `FunctionBuilder::translate_unreachable`. -/
def FunctionBuilder.translateUnreachable (b : FunctionBuilder) :
    Option FunctionBuilder :=
  b.translateIfReachable fun b =>
    some { b with instBuilder := b.instBuilder.pushInst .unreachable
                  reachable := false }

/-- `FunctionBuilder::translate_block`: captures the current stack
height; when unreachable an unreachable frame remembering the `block`
kind is pushed instead and no label is allocated. -/
def FunctionBuilder.translateBlock (b : FunctionBuilder) (bt : BlockType) :
    Option FunctionBuilder :=
  let stackHeight := b.valueStack.length
  if b.reachable then
    let lblIb := b.instBuilder.newLabel
    some { b with instBuilder := lblIb.2
                  controlFrames :=
                    .block bt lblIb.1 stackHeight :: b.controlFrames }
  else
    some { b with controlFrames :=
      .unreachableFrame .block bt stackHeight :: b.controlFrames }

/-- `FunctionBuilder::translate_loop`: like `block`, but the header
label is resolved immediately at the loop's entry position. -/
def FunctionBuilder.translateLoop (b : FunctionBuilder) (bt : BlockType) :
    Option FunctionBuilder :=
  let stackHeight := b.valueStack.length
  if b.reachable then do
    let lblIb := b.instBuilder.newLabel
    let ib ← lblIb.2.resolveLabel lblIb.1
    pure { b with instBuilder := ib
                  controlFrames :=
                    .loop bt lblIb.1 stackHeight :: b.controlFrames }
  else
    some { b with controlFrames :=
      .unreachableFrame .loop bt stackHeight :: b.controlFrames }

/-- `FunctionBuilder::translate_if` (mod.rs lines 300-325): pops the
condition from the emulated value stack before the reachability check;
when reachable it pushes the `if` frame and emits a conditional branch
to the else label with a zero drop-keep, when unreachable it only
pushes an unreachable frame remembering the `if` kind. -/
def FunctionBuilder.translateIf (b : FunctionBuilder) (bt : BlockType) :
    Option FunctionBuilder := do
  let popped ← stackPop1 b.valueStack
  let vs := popped.2
  let stackHeight := vs.length
  if b.reachable then
    let elseIb := b.instBuilder.newLabel
    let endIb := elseIb.2.newLabel
    let frames := ControlFrame.if_ bt endIb.1 elseIb.1 stackHeight ::
      b.controlFrames
    let resolved ← endIb.2.tryResolveLabel elseIb.1 Reloc.br
    let ib := resolved.2.pushInst (.brIfEqz ⟨resolved.1, ⟨0, 0⟩⟩)
    pure { b with valueStack := vs, controlFrames := frames,
                  instBuilder := ib }
  else
    pure { b with valueStack := vs,
                  controlFrames :=
                    .unreachableFrame .if_ bt stackHeight ::
                      b.controlFrames }

/-- `FunctionBuilder::translate_else` (mod.rs lines 328-358): when
reachable, the top frame must be an `if` frame; a branch to its end
label closes the then-arm, the else label resolves here, and the frame
is pushed back. When unreachable, the top frame must be an unreachable
frame of `if` kind and the state is returned unchanged; any other top
frame is a fatal error (`none`). The reachability flag is never reset
here. -/
def FunctionBuilder.translateElse (b : FunctionBuilder) :
    Option FunctionBuilder :=
  if b.reachable then
    match b.controlFrames with
    | ControlFrame.if_ bt endLabel elseLabel height :: rest => do
      let resolved ← b.instBuilder.tryResolveLabel endLabel Reloc.br
      let ib1 := resolved.2.pushInst (.br ⟨resolved.1, ⟨0, 0⟩⟩)
      let ib2 ← ib1.resolveLabel elseLabel
      pure { b with instBuilder := ib2,
                    controlFrames :=
                      ControlFrame.if_ bt endLabel elseLabel height :: rest }
    | _ => none
  else
    match b.controlFrames with
    | ControlFrame.unreachableFrame .if_ _ _ :: _ => some b
    | _ => none

/-- `FunctionBuilder::translate_end` (mod.rs lines 361-389): pops the
top frame; resolves its else label if it was an `if` and its end label
unless its kind is `loop`; when still reachable and the frame stack
became empty, emits the implicit function return with drop-keep (0, 0);
when unreachable, restores reachability to the popped frame's own
reachability; finally shrinks the value stack to the frame's entry
height. -/
def FunctionBuilder.translateEnd (b : FunctionBuilder) :
    Option FunctionBuilder := do
  match b.controlFrames with
  | [] => none
  | frame :: rest => do
    let ib1 ← match frame with
      | ControlFrame.if_ _ _ elseLabel _ => b.instBuilder.resolveLabel elseLabel
      | _ => pure b.instBuilder
    let ib2 ← if frame.kind ≠ ControlFrameKind.loop then do
        let endLabel ← frame.endLabel?
        ib1.resolveLabel endLabel
      else
        pure ib1
    if b.reachable then
      let ib3 := if rest.isEmpty then ib2.pushInst (.ret ⟨0, 0⟩) else ib2
      pure { b with controlFrames := rest, instBuilder := ib3,
                    valueStack := shrinkTo frame.stackHeight b.valueStack }
    else
      pure { b with controlFrames := rest, instBuilder := ib2,
                    reachable := frame.isReachable,
                    valueStack := shrinkTo frame.stackHeight b.valueStack }

/-- `FunctionBuilder::translate_br`. -/
def FunctionBuilder.translateBr (b : FunctionBuilder)
    (relativeDepth : Nat) : Option FunctionBuilder :=
  b.translateIfReachable fun b => do
    let target ← b.acquireTarget relativeDepth
    let resolved ← b.instBuilder.tryResolveLabel target.1 Reloc.br
    pure { b with
      instBuilder := resolved.2.pushInst (.br ⟨resolved.1, target.2⟩)
      reachable := false }

/-- `FunctionBuilder::translate_br_if`: pops the condition, then emits
a conditional branch; reachability is left unchanged. -/
def FunctionBuilder.translateBrIf (b : FunctionBuilder)
    (relativeDepth : Nat) : Option FunctionBuilder :=
  b.translateIfReachable fun b => do
    let popped ← stackPop1 b.valueStack
    let b1 := { b with valueStack := popped.2 }
    let target ← b1.acquireTarget relativeDepth
    let resolved ← b1.instBuilder.tryResolveLabel target.1 Reloc.br
    pure { b1 with
      instBuilder := resolved.2.pushInst (.brIfNez ⟨resolved.1, target.2⟩) }

/-- The `compute_target` closure of `translate_br_table`: the target of
arm `n` at the given depth, threading the instruction builder and
using a numbered branch-table relocation. -/
def FunctionBuilder.computeTarget (b : FunctionBuilder)
    (ib : InstructionsBuilder) (n : Nat) (depth : Nat) :
    Option (Target × InstructionsBuilder) := do
  let frame ← b.controlFrames.get? depth
  let label ← frame.branchDestination?
  let dk ← b.computeDropKeep depth
  let resolved ← ib.tryResolveLabel label (fun pc => Reloc.brTable pc n)
  pure (⟨resolved.1, dk⟩, resolved.2)

/-- The targets of the numbered branch-table arms, in order. -/
def FunctionBuilder.computeTargets (b : FunctionBuilder) (n : Nat)
    (ib : InstructionsBuilder) :
    List Nat → Option (List Target × InstructionsBuilder)
  | [] => some ([], ib)
  | d :: ds => do
    let ti ← b.computeTarget ib n d
    let rest ← b.computeTargets (n + 1) ti.2 ds
    pure (ti.1 :: rest.1, rest.2)

/-- `FunctionBuilder::translate_br_table` (mod.rs lines 419-461): pops
the selector, computes one target per arm and then the default arm's
target (numbered after all others), emits the table header followed by
one target record per arm plus the default, and clears reachability. -/
def FunctionBuilder.translateBrTable (b : FunctionBuilder)
    (defaultDepth : Nat) (targets : List Nat) : Option FunctionBuilder :=
  b.translateIfReachable fun b => do
    let popped ← stackPop1 b.valueStack
    let b1 := { b with valueStack := popped.2 }
    let ts ← b1.computeTargets 0 b1.instBuilder targets
    let dflt ← b1.computeTarget ts.2 targets.length defaultDepth
    let ib1 := dflt.2.pushInst (.brTable targets.length)
    let ib2 := ts.1.foldl (fun ib t => ib.pushInst (.brTableTarget t)) ib1
    let ib3 := ib2.pushInst (.brTableTarget dflt.1)
    pure { b1 with instBuilder := ib3, reachable := false }

/-- `FunctionBuilder::translate_return` (mod.rs lines 464-473). -/
def FunctionBuilder.translateReturn (b : FunctionBuilder) :
    Option FunctionBuilder :=
  b.translateIfReachable fun b => do
    let dk ← b.dropKeepReturn
    pure { b with instBuilder := b.instBuilder.pushInst (.ret dk)
                  reachable := false }

/-- `FunctionBuilder::translate_call`. -/
def FunctionBuilder.translateCall (b : FunctionBuilder) (funcIdx : Nat) :
    Option FunctionBuilder :=
  b.translateIfReachable fun b =>
    some { b with instBuilder := b.instBuilder.pushInst (.call funcIdx) }

/-- `FunctionBuilder::translate_call_indirect`: the table index must be
the default table 0 (an always-on `assert_eq!`); pops the function-type
operand. -/
def FunctionBuilder.translateCallIndirect (b : FunctionBuilder)
    (funcTypeIdx tableIdx : Nat) : Option FunctionBuilder :=
  b.translateIfReachable fun b => do
    if tableIdx = 0 then
      let popped ← stackPop1 b.valueStack
      pure { b with valueStack := popped.2,
                    instBuilder :=
                      b.instBuilder.pushInst (.callIndirect funcTypeIdx) }
    else
      none

/-- `FunctionBuilder::translate_drop`. -/
def FunctionBuilder.translateDrop (b : FunctionBuilder) :
    Option FunctionBuilder :=
  b.translateIfReachable fun b => do
    let popped ← stackPop1 b.valueStack
    pure { b with valueStack := popped.2 }

/-- `FunctionBuilder::translate_select`: pops `(v0, v1, selector)` and
pushes `v0` back. -/
def FunctionBuilder.translateSelect (b : FunctionBuilder) :
    Option FunctionBuilder :=
  b.translateIfReachable fun b => do
    let popped ← stackPop3 b.valueStack
    pure { b with valueStack := popped.1.1 :: popped.2,
                  instBuilder := b.instBuilder.pushInst .select }

/-- `FunctionBuilder::translate_local_get`. -/
def FunctionBuilder.translateLocalGet (b : FunctionBuilder)
    (localIdx : Nat) : Option FunctionBuilder :=
  b.translateIfReachable fun b => do
    let depth ← b.relativeLocalDepth localIdx
    let ib := b.instBuilder.pushInst (.getLocal depth)
    let vt ← b.locals.resolveLocal localIdx
    pure { b with instBuilder := ib, valueStack := vt :: b.valueStack }

/-- `FunctionBuilder::translate_local_set`. -/
def FunctionBuilder.translateLocalSet (b : FunctionBuilder)
    (localIdx : Nat) : Option FunctionBuilder :=
  b.translateIfReachable fun b => do
    let depth ← b.relativeLocalDepth localIdx
    let ib := b.instBuilder.pushInst (.setLocal depth)
    let _expected ← b.locals.resolveLocal localIdx
    let popped ← stackPop1 b.valueStack
    pure { b with instBuilder := ib, valueStack := popped.2 }

/-- `FunctionBuilder::translate_local_tee`: like `local.set` but the
operand stays on the stack (`value_stack.top()` is only read). -/
def FunctionBuilder.translateLocalTee (b : FunctionBuilder)
    (localIdx : Nat) : Option FunctionBuilder :=
  b.translateIfReachable fun b => do
    let depth ← b.relativeLocalDepth localIdx
    let ib := b.instBuilder.pushInst (.teeLocal depth)
    let _expected ← b.locals.resolveLocal localIdx
    let _actual ← stackTop b.valueStack
    pure { b with instBuilder := ib }

/-- `FunctionBuilder::translate_global_get`: pushes the global's value
type. -/
def FunctionBuilder.translateGlobalGet (b : FunctionBuilder)
    (globalIdx : Nat) : Option FunctionBuilder :=
  b.translateIfReachable fun b => do
    let gt ← b.globals.get? globalIdx
    pure { b with valueStack := gt :: b.valueStack,
                  instBuilder := b.instBuilder.pushInst (.getGlobal globalIdx) }

/-- `FunctionBuilder::translate_global_set`: pops the stored value. -/
def FunctionBuilder.translateGlobalSet (b : FunctionBuilder)
    (globalIdx : Nat) : Option FunctionBuilder :=
  b.translateIfReachable fun b => do
    let _gt ← b.globals.get? globalIdx
    let popped ← stackPop1 b.valueStack
    pure { b with valueStack := popped.2,
                  instBuilder := b.instBuilder.pushInst (.setGlobal globalIdx) }

/-- `FunctionBuilder::translate_load` (mod.rs lines 626-642), the
shared backend of the fourteen load operators: pops the pointer, pushes
the loaded type, emits the instruction built from the offset. -/
def FunctionBuilder.translateLoad (b : FunctionBuilder)
    (memoryIdx offset : Nat) (loadedType : ValueType)
    (makeInst : Nat → Instruction) : Option FunctionBuilder :=
  b.translateIfReachable fun b => do
    let popped ← stackPop1 b.valueStack
    pure { b with valueStack := loadedType :: popped.2,
                  instBuilder := b.instBuilder.pushInst (makeInst offset) }

/-- `FunctionBuilder::translate_i32_load`, one representative of the
delegating load wrappers. -/
def FunctionBuilder.translateI32Load (b : FunctionBuilder)
    (memoryIdx offset : Nat) : Option FunctionBuilder :=
  b.translateLoad memoryIdx offset .i32 (Instruction.loadOp .i32)

/-- `FunctionBuilder::translate_store` (mod.rs lines 785-802), the
shared backend of the nine store operators: pops the pointer and the
stored value, whose type must match (an always-on `assert_eq!`), and
emits the instruction built from the offset. -/
def FunctionBuilder.translateStore (b : FunctionBuilder)
    (memoryIdx offset : Nat) (storedValue : ValueType)
    (makeInst : Nat → Instruction) : Option FunctionBuilder :=
  b.translateIfReachable fun b => do
    let popped1 ← stackPop1 b.valueStack
    let popped2 ← stackPop1 popped1.2
    if storedValue = popped2.1 then
      pure { b with valueStack := popped2.2,
                    instBuilder := b.instBuilder.pushInst (makeInst offset) }
    else
      none

/-- `FunctionBuilder::translate_i32_store`, one representative of the
delegating store wrappers. -/
def FunctionBuilder.translateI32Store (b : FunctionBuilder)
    (memoryIdx offset : Nat) : Option FunctionBuilder :=
  b.translateStore memoryIdx offset .i32 (Instruction.storeOp .i32)

/-- `FunctionBuilder::translate_memory_size`. -/
def FunctionBuilder.translateMemorySize (b : FunctionBuilder)
    (memoryIdx : Nat) : Option FunctionBuilder :=
  b.translateIfReachable fun b =>
    some { b with valueStack := ValueType.i32 :: b.valueStack,
                  instBuilder := b.instBuilder.pushInst .currentMemory }

/-- `FunctionBuilder::translate_memory_grow`: the stack is unchanged
(the page-count operand is replaced by the i32 result). -/
def FunctionBuilder.translateMemoryGrow (b : FunctionBuilder)
    (memoryIdx : Nat) : Option FunctionBuilder :=
  b.translateIfReachable fun b =>
    some { b with instBuilder := b.instBuilder.pushInst .growMemory }

/-- `FunctionBuilder::translate_const` (mod.rs lines 915-925), the
shared backend of the four constant operators. -/
def FunctionBuilder.translateConst (b : FunctionBuilder) (v : Value) :
    Option FunctionBuilder :=
  b.translateIfReachable fun b =>
    some { b with valueStack := v.valueType :: b.valueStack,
                  instBuilder := b.instBuilder.pushInst (.constant v) }

/-- `FunctionBuilder::translate_unary_cmp` (mod.rs lines 955-967): pops
the operand and pushes i32. Note that the source pushes the hardcoded
`I32Eqz` instruction here, ignoring its `inst` parameter. -/
def FunctionBuilder.translateUnaryCmp (b : FunctionBuilder)
    (inputType : ValueType) (inst : Instruction) : Option FunctionBuilder :=
  b.translateIfReachable fun b => do
    let popped ← stackPop1 b.valueStack
    pure { b with valueStack := ValueType.i32 :: popped.2,
                  instBuilder := b.instBuilder.pushInst .i32Eqz }

/-- `FunctionBuilder::translate_binary_cmp` (mod.rs lines 986-999):
pops two operands and pushes i32. -/
def FunctionBuilder.translateBinaryCmp (b : FunctionBuilder)
    (inputType : ValueType) (inst : Instruction) : Option FunctionBuilder :=
  b.translateIfReachable fun b => do
    let popped1 ← stackPop1 b.valueStack
    let popped2 ← stackPop1 popped1.2
    pure { b with valueStack := ValueType.i32 :: popped2.2,
                  instBuilder := b.instBuilder.pushInst inst }

/-- `FunctionBuilder::translate_i32_eq`, one representative of the
delegating comparison wrappers. -/
def FunctionBuilder.translateI32Eq (b : FunctionBuilder) :
    Option FunctionBuilder :=
  b.translateBinaryCmp .i32 (.cmpOp .i32 0)

/-- A sequence of `translate_locals` calls, as issued once per local
group of a function's declaration. -/
def FunctionBuilder.translateLocalsList (b : FunctionBuilder) :
    List (Nat × ValueType) → FunctionBuilder
  | [] => b
  | (n, t) :: rest => ((b.translateLocals n t).translateLocalsList rest)

/-! ### Code map lemmas -/

theorem CodeMap.alloc_some {α : Type} (m : CodeMap α) (l : List α)
    (m' : CodeMap α) (fb : FuncBody) (h : m.alloc l = some (m', fb)) :
    m' = ⟨m.insts ++ l⟩ ∧ fb = ⟨m.insts.length, l.length⟩ := by
  unfold CodeMap.alloc at h
  split at h
  · injection h with h'
    rw [Prod.mk.injEq] at h'
    exact ⟨h'.1.symm, h'.2.symm⟩
  · simp at h

theorem CodeMap.resolve_alloc {α : Type} (m : CodeMap α) (l : List α)
    (m' : CodeMap α) (fb : FuncBody) (h : m.alloc l = some (m', fb)) :
    m'.resolve fb = some l := by
  obtain ⟨hm, hfb⟩ := CodeMap.alloc_some m l m' fb h
  subst hm; subst hfb
  unfold CodeMap.resolve
  simp

theorem CodeMap.allocList_spec {α : Type} (ls : List (List α)) :
    ∀ (m m' : CodeMap α) (fbs : List FuncBody),
      m.allocList ls = some (m', fbs) →
      m'.insts = m.insts ++ ls.flatten ∧
      ∀ i, fbs.get? i =
        (ls.get? i).map (fun l => ⟨m.insts.length + prefixLen ls i, l.length⟩) := by
  induction ls with
  | nil =>
    intro m m' fbs h
    simp only [CodeMap.allocList, Option.some.injEq, Prod.mk.injEq] at h
    obtain ⟨rfl, rfl⟩ := h
    simp [prefixLen]
  | cons l ls ih =>
    intro m m' fbs h
    simp only [CodeMap.allocList, Option.bind_eq_bind, Option.bind_eq_some] at h
    obtain ⟨⟨m1, fb⟩, halloc, h⟩ := h
    obtain ⟨⟨m2, fbs2⟩, hrest, h⟩ := h
    simp only [Option.some.injEq, Prod.mk.injEq] at h
    obtain ⟨rfl, rfl⟩ := h
    obtain ⟨hm1, hfb⟩ := CodeMap.alloc_some m l m1 fb halloc
    subst hm1; subst hfb
    obtain ⟨hm2, hget⟩ := ih _ _ _ hrest
    constructor
    · simpa using hm2
    · intro i
      cases i with
      | zero => simp [prefixLen]
      | succ i =>
        have hpl : prefixLen (l :: ls) (i + 1) = l.length + prefixLen ls i := by
          simp [prefixLen, List.take_succ_cons]
        simp only [List.get?_cons_succ, hget i]
        cases hg : ls.get? i with
        | none => simp [hg]
        | some li =>
          simp [hg, hpl, FuncBody.mk.injEq]
          omega

theorem prefixLen_succ_of_get {α : Type} (ls : List (List α)) (i : Nat)
    (l : List α) (h : ls.get? i = some l) :
    prefixLen ls (i + 1) = prefixLen ls i + l.length := by
  induction ls generalizing i with
  | nil => simp at h
  | cons a as ih =>
    cases i with
    | zero =>
      simp only [List.get?_cons_zero, Option.some.injEq] at h
      subst h
      simp [prefixLen]
    | succ i =>
      simp only [List.get?_cons_succ] at h
      have := ih i h
      simp [prefixLen, List.take_succ_cons] at this ⊢
      omega

theorem prefixLen_le_succ {α : Type} (ls : List (List α)) (i : Nat) :
    prefixLen ls i ≤ prefixLen ls (i + 1) := by
  unfold prefixLen
  rw [List.take_succ, List.map_append, List.sum_append]
  exact Nat.le_add_right _ _

theorem prefixLen_mono {α : Type} (ls : List (List α)) {i j : Nat} (h : i ≤ j) :
    prefixLen ls i ≤ prefixLen ls j := by
  induction j with
  | zero => simp [Nat.le_zero.mp h]
  | succ j ih =>
    rcases Nat.lt_or_ge i (j + 1) with h' | h'
    · exact Nat.le_trans (ih (Nat.lt_succ_iff.mp h')) (prefixLen_le_succ ls j)
    · have : i = j + 1 := Nat.le_antisymm h h'
      exact this ▸ Nat.le_refl _

theorem flatten_slice {α : Type} (ls : List (List α)) :
    ∀ (i : Nat) (l : List α), ls.get? i = some l →
      prefixLen ls i + l.length ≤ ls.flatten.length ∧
      (ls.flatten.drop (prefixLen ls i)).take l.length = l := by
  induction ls with
  | nil => intro i l h; simp at h
  | cons a as ih =>
    intro i l h
    cases i with
    | zero =>
      simp only [List.get?_cons_zero, Option.some.injEq] at h
      subst h
      constructor
      · simp [prefixLen]
      · simp [prefixLen, List.take_append_of_le_length]
    | succ i =>
      simp only [List.get?_cons_succ] at h
      obtain ⟨hle, hsl⟩ := ih i l h
      have hpl : prefixLen (a :: as) (i + 1) = a.length + prefixLen as i := by
        simp [prefixLen, List.take_succ_cons]
      constructor
      · rw [hpl]
        simp only [List.flatten_cons, List.length_append]
        omega
      · have : ((a :: as).flatten).drop (prefixLen (a :: as) (i + 1)) =
            as.flatten.drop (prefixLen as i) := by
          simp only [List.flatten_cons, hpl]
          exact List.drop_append (prefixLen as i)
        rw [this, hsl]

theorem flatten_cover {α : Type} (ls : List (List α)) :
    ∀ p, p < (ls.map List.length).sum →
      ∃ i l, ls.get? i = some l ∧ prefixLen ls i ≤ p ∧
        p < prefixLen ls i + l.length := by
  induction ls with
  | nil => intro p h; simp at h
  | cons a as ih =>
    intro p h
    rcases Nat.lt_or_ge p a.length with h' | h'
    · exact ⟨0, a, by simp, by simp [prefixLen], by simpa [prefixLen]⟩
    · have : p - a.length < (as.map List.length).sum := by
        simp only [List.map_cons, List.sum_cons] at h
        omega
      obtain ⟨i, l, hget, hlo, hhi⟩ := ih (p - a.length) this
      have hpl : prefixLen (a :: as) (i + 1) = a.length + prefixLen as i := by
        simp [prefixLen, List.take_succ_cons]
      refine ⟨i + 1, l, by simpa using hget, ?_, ?_⟩
      · rw [hpl]; omega
      · rw [hpl]; omega

theorem slice_append {α : Type} (x y : List α) (a n : Nat)
    (h : a + n ≤ x.length) :
    (((x ++ y).drop a).take n) = ((x.drop a).take n) := by
  rw [List.drop_append_of_le_length (by omega)]
  rw [List.take_append_of_le_length (by simp; omega)]

/-- C8: for every representable register index R (a `u16`, so R < 2^16),
decoding `from_register(R)` yields `Register(R)`; for every constant
index K with K < 2^31 - 1, `from_immediate(K)` succeeds and decodes to
`Immediate(K)`; and no register encoding equals any immediate
encoding. -/
theorem c8_exec_provider_roundtrip :
    (∀ r : Nat, r < 65536 →
      (ExecProvider.fromRegister r).decode = .register r) ∧
    (∀ (k : Nat) (e : ExecProvider), ExecProvider.fromImmediate k = some e →
      e.decode = .immediate k) ∧
    (∀ (r k : Nat) (e : ExecProvider), ExecProvider.fromImmediate k = some e →
      ExecProvider.fromRegister r ≠ e) := by
  refine ⟨?_, ?_, ?_⟩
  · intro r hr
    simp [ExecProvider.fromRegister, ExecProvider.decode, Nat.mod_eq_of_lt hr]
  · intro k e he
    unfold ExecProvider.fromImmediate at he
    split at he
    · injection he with he
      subst he
      have habs : (-((k : Int) + 1)).natAbs = k + 1 := by omega
      unfold ExecProvider.decode
      dsimp only
      rw [if_pos (by omega), habs]
      simp
    · simp at he
  · intro r k e he hcontra
    unfold ExecProvider.fromImmediate at he
    split at he
    · injection he with he
      rw [← he] at hcontra
      have : (r : Int) = -((k : Int) + 1) := congrArg ExecProvider.inner hcontra
      omega
    · simp at he

/-- C8 witness: the round-trip and non-overlap at register index 3 and
constant index 5. -/
theorem c8_exec_provider_roundtrip_witness :
    (ExecProvider.fromRegister 3).decode = .register 3 ∧
    (ExecProvider.decode ⟨-6⟩ = .immediate 5) ∧
    ExecProvider.fromRegister 3 ≠ (⟨-6⟩ : ExecProvider) :=
  ⟨c8_exec_provider_roundtrip.1 3 (by decide),
   c8_exec_provider_roundtrip.2.1 5 ⟨-6⟩ (by decide),
   c8_exec_provider_roundtrip.2.2 3 5 ⟨-6⟩ (by decide)⟩

/-- C6: a body allocated via `CodeMap::alloc` resolves to exactly the
sequence that was allocated; and allocating N bodies on a fresh code map
yields handles whose resolved slices equal the originals, are pairwise
non-overlapping index ranges of the shared buffer, and together cover
exactly the first l1 + ... + lN positions. -/
theorem c6_code_map_round_trip {α : Type} (m0 : CodeMap α) (l : List α)
    (m1 : CodeMap α) (fb : FuncBody) (ls : List (List α)) (m : CodeMap α)
    (fbs : List FuncBody)
    (h1 : m0.alloc l = some (m1, fb))
    (h2 : CodeMap.empty.allocList ls = some (m, fbs)) :
    m1.resolve fb = some l ∧
    (∀ i li, ls.get? i = some li →
      ∃ fbi, fbs.get? i = some fbi ∧ m.resolve fbi = some li) ∧
    (∀ i j fbi fbj, fbs.get? i = some fbi → fbs.get? j = some fbj → i ≠ j →
      ∀ p, fbi.inst ≤ p → p < fbi.inst + fbi.len →
        ¬(fbj.inst ≤ p ∧ p < fbj.inst + fbj.len)) ∧
    (∀ p, p < (ls.map List.length).sum ↔
      ∃ i fbi, fbs.get? i = some fbi ∧ fbi.inst ≤ p ∧
        p < fbi.inst + fbi.len) := by
  obtain ⟨hm, hget⟩ := CodeMap.allocList_spec ls CodeMap.empty m fbs h2
  simp only [CodeMap.empty, List.nil_append, List.length_nil, Nat.zero_add] at hm hget
  have hhandle : ∀ i fbi, fbs.get? i = some fbi →
      ∃ li, ls.get? i = some li ∧ fbi = ⟨prefixLen ls i, li.length⟩ := by
    intro i fbi hf
    rw [hget i] at hf
    cases hl : ls.get? i with
    | none => rw [hl] at hf; simp at hf
    | some li =>
      rw [hl] at hf
      simp only [Option.map_some'] at hf
      exact ⟨li, rfl, (Option.some.inj hf).symm⟩
  refine ⟨CodeMap.resolve_alloc m0 l m1 fb h1, ?_, ?_, ?_⟩
  · intro i li hl
    refine ⟨⟨prefixLen ls i, li.length⟩, by rw [hget i, hl]; rfl, ?_⟩
    obtain ⟨hle, hsl⟩ := flatten_slice ls i li hl
    unfold CodeMap.resolve
    rw [hm]
    rw [if_pos (by simpa using hle)]
    simpa using hsl
  · intro i j fbi fbj hfi hfj hij p hpi1 hpi2 hpj
    obtain ⟨li, hli, rfl⟩ := hhandle i fbi hfi
    obtain ⟨lj, hlj, rfl⟩ := hhandle j fbj hfj
    simp only at hpi1 hpi2 hpj
    rcases Nat.lt_or_ge i j with hij' | hij'
    · have h1 : prefixLen ls (i + 1) = prefixLen ls i + li.length :=
        prefixLen_succ_of_get ls i li hli
      have h2 : prefixLen ls (i + 1) ≤ prefixLen ls j := prefixLen_mono ls hij'
      omega
    · have hji : j < i := Nat.lt_of_le_of_ne hij' (Ne.symm (by omega))
      have h1 : prefixLen ls (j + 1) = prefixLen ls j + lj.length :=
        prefixLen_succ_of_get ls j lj hlj
      have h2 : prefixLen ls (j + 1) ≤ prefixLen ls i :=
        prefixLen_mono ls hji
      omega
  · intro p
    constructor
    · intro hp
      obtain ⟨i, li, hli, hlo, hhi⟩ := flatten_cover ls p hp
      exact ⟨i, ⟨prefixLen ls i, li.length⟩, by rw [hget i, hli]; rfl, hlo, hhi⟩
    · rintro ⟨i, fbi, hfi, hlo, hhi⟩
      obtain ⟨li, hli, rfl⟩ := hhandle i fbi hfi
      obtain ⟨hle, _⟩ := flatten_slice ls i li hli
      have : ls.flatten.length = (ls.map List.length).sum := by
        simp [List.length_flatten]
      simp only at hlo hhi
      omega

/-- C6 witness: two bodies of sizes 2 and 1 allocated on a fresh map. -/
theorem c6_code_map_round_trip_witness :
    ((CodeMap.empty : CodeMap Nat).alloc [5, 6] =
      some (⟨[5, 6]⟩, ⟨0, 2⟩)) ∧
    ((CodeMap.empty : CodeMap Nat).allocList [[5, 6], [7]] =
      some (⟨[5, 6, 7]⟩, [⟨0, 2⟩, ⟨2, 1⟩])) ∧
    ((⟨[5, 6]⟩ : CodeMap Nat).resolve ⟨0, 2⟩ = some [5, 6] ∧
      (∀ i li, [[5, 6], [7]].get? i = some li →
        ∃ fbi, [FuncBody.mk 0 2, FuncBody.mk 2 1].get? i = some fbi ∧
          (⟨[5, 6, 7]⟩ : CodeMap Nat).resolve fbi = some li) ∧
      (∀ i j fbi fbj, [FuncBody.mk 0 2, FuncBody.mk 2 1].get? i = some fbi →
        [FuncBody.mk 0 2, FuncBody.mk 2 1].get? j = some fbj → i ≠ j →
        ∀ p, fbi.inst ≤ p → p < fbi.inst + fbi.len →
          ¬(fbj.inst ≤ p ∧ p < fbj.inst + fbj.len)) ∧
      (∀ p, p < ([[5, 6], [7]].map List.length).sum ↔
        ∃ i fbi, [FuncBody.mk 0 2, FuncBody.mk 2 1].get? i = some fbi ∧
          fbi.inst ≤ p ∧ p < fbi.inst + fbi.len)) :=
  ⟨by decide, by decide,
   c6_code_map_round_trip CodeMap.empty [5, 6] ⟨[5, 6]⟩ ⟨0, 2⟩
     [[5, 6], [7]] ⟨[5, 6, 7]⟩ [⟨0, 2⟩, ⟨2, 1⟩] (by decide) (by decide)⟩

/-- C9: the code map is append-only — a handle that is in range for a
code map resolves to the same instruction sequence after any further
sequence of allocations on that map. -/
theorem c9_code_map_append_only {α : Type} (m : CodeMap α) (fb : FuncBody)
    (hfb : fb.inst + fb.len ≤ m.insts.length)
    (ls : List (List α)) (m' : CodeMap α) (fbs : List FuncBody)
    (h : m.allocList ls = some (m', fbs)) :
    m'.resolve fb = m.resolve fb := by
  obtain ⟨hm, -⟩ := CodeMap.allocList_spec ls m m' fbs h
  unfold CodeMap.resolve
  rw [hm]
  rw [if_pos (by simp; omega), if_pos hfb]
  rw [slice_append m.insts ls.flatten fb.inst fb.len hfb]

/-- C9 witness: the handle of the first body still resolves to the same
sequence after two more allocations. -/
theorem c9_code_map_append_only_witness :
    (FuncBody.inst ⟨0, 2⟩ + FuncBody.len ⟨0, 2⟩ ≤
      (CodeMap.insts (⟨[5, 6]⟩ : CodeMap Nat)).length) ∧
    ((⟨[5, 6]⟩ : CodeMap Nat).allocList [[7], [8, 9]] =
      some (⟨[5, 6, 7, 8, 9]⟩, [⟨2, 1⟩, ⟨3, 2⟩])) ∧
    (⟨[5, 6, 7, 8, 9]⟩ : CodeMap Nat).resolve ⟨0, 2⟩ =
      (⟨[5, 6]⟩ : CodeMap Nat).resolve ⟨0, 2⟩ :=
  ⟨by decide, by decide,
   c9_code_map_append_only ⟨[5, 6]⟩ ⟨0, 2⟩ (by decide) [[7], [8, 9]]
     ⟨[5, 6, 7, 8, 9]⟩ [⟨2, 1⟩, ⟨3, 2⟩] (by decide)⟩

/-! ### Arena lemmas -/

theorem resolveProviders_append (prov ext : List ExecProvider)
    (s : ExecProviderSlice) (k : List ExecProvider)
    (h : resolveProviders prov s = some k) :
    resolveProviders (prov ++ ext) s = some k := by
  unfold resolveProviders at h ⊢
  split at h
  · rw [if_pos (by simp; omega)]
    rw [slice_append prov ext s.first s.len (by omega)]
    exact h
  · simp at h

theorem lookup_none_notmem (xs : List ExecProvider)
    (d : List (List ExecProvider × ExecProviderSlice))
    (h : List.lookup xs d = none) :
    ∀ e ∈ d, e.1 ≠ xs := by
  induction d with
  | nil => intro e he; simp at he
  | cons p es ih =>
    intro e he
    rw [List.lookup_cons] at h
    split at h
    · simp at h
    · rcases List.mem_cons.mp he with rfl | he'
      · rename_i hbeq
        intro hc
        rw [hc] at hbeq
        simp at hbeq
      · exact ih h e he'

theorem lookup_some_mem (xs : List ExecProvider) (s : ExecProviderSlice)
    (d : List (List ExecProvider × ExecProviderSlice))
    (h : List.lookup xs d = some s) :
    (xs, s) ∈ d := by
  induction d with
  | nil => simp [List.lookup] at h
  | cons p es ih =>
    rw [List.lookup_cons] at h
    split at h
    · rename_i hbeq
      injection h with h
      have : xs = p.1 := by simpa using hbeq
      subst this
      subst h
      exact List.mem_cons_self _ _
    · exact List.mem_cons_of_mem _ (ih h)

theorem unique_key_mem (d : List (List ExecProvider × ExecProviderSlice))
    (hp : d.Pairwise (fun e1 e2 => e1.1 ≠ e2.1)) (k : List ExecProvider)
    (s1 s2 : ExecProviderSlice) (h1 : (k, s1) ∈ d) (h2 : (k, s2) ∈ d) :
    s1 = s2 := by
  induction d with
  | nil => simp at h1
  | cons p es ih =>
    have hp' := List.pairwise_cons.mp hp
    rcases List.mem_cons.mp h1 with he1 | he1 <;>
      rcases List.mem_cons.mp h2 with he2 | he2
    · exact congrArg Prod.snd (he1.trans he2.symm)
    · exact absurd (congrArg Prod.fst he1).symm (hp'.1 (k, s2) he2)
    · exact absurd (congrArg Prod.fst he2).symm (hp'.1 (k, s1) he1)
    · exact ih hp'.2 he1 he2

theorem DedupProviderSliceArena.alloc_step (a : DedupProviderSliceArena)
    (xs : List ExecProvider) (a' : DedupProviderSliceArena)
    (s : ExecProviderSlice) (hwf : a.WF) (h : a.alloc xs = some (a', s)) :
    a'.WF ∧ (xs, s) ∈ a'.dedup ∧ (∀ e ∈ a.dedup, e ∈ a'.dedup) ∧
    ∃ ext, a'.providers = a.providers ++ ext := by
  unfold DedupProviderSliceArena.alloc at h
  split at h
  · rename_i s0 hl
    injection h with h
    rw [Prod.mk.injEq] at h
    obtain ⟨rfl, rfl⟩ := h
    exact ⟨hwf, lookup_some_mem xs s0 a.dedup hl, fun e he => he,
      [], by simp⟩
  · rename_i hl
    split at h
    · injection h with h
      rw [Prod.mk.injEq] at h
      obtain ⟨rfl, rfl⟩ := h
      refine ⟨⟨?_, ?_⟩, List.mem_cons_self _ _,
        fun e he => List.mem_cons_of_mem _ he, xs, rfl⟩
      · intro k t hkt
        rcases List.mem_cons.mp hkt with hkt | hkt
        · rw [Prod.mk.injEq] at hkt
          obtain ⟨rfl, rfl⟩ := hkt
          unfold DedupProviderSliceArena.resolve resolveProviders
          simp
        · have := hwf.1 k t hkt
          unfold DedupProviderSliceArena.resolve at this ⊢
          exact resolveProviders_append a.providers xs t k this
      · refine List.pairwise_cons.mpr ⟨?_, hwf.2⟩
        intro e he
        exact fun hc => lookup_none_notmem xs a.dedup hl e he hc.symm
    · simp at h

theorem DedupProviderSliceArena.allocChain_spec
    (xss : List (List ExecProvider)) :
    ∀ (a a' : DedupProviderSliceArena) (ss : List ExecProviderSlice),
      a.WF → a.allocList xss = some (a', ss) →
      a'.WF ∧ (∀ e ∈ a.dedup, e ∈ a'.dedup) ∧
      (∀ i xs, xss.get? i = some xs →
        ∃ s, ss.get? i = some s ∧ (xs, s) ∈ a'.dedup) := by
  induction xss with
  | nil =>
    intro a a' ss hwf h
    simp only [DedupProviderSliceArena.allocList, Option.some.injEq,
      Prod.mk.injEq] at h
    obtain ⟨rfl, rfl⟩ := h
    exact ⟨hwf, fun e he => he, fun i xs h => by simp at h⟩
  | cons xs xss ih =>
    intro a a' ss hwf h
    simp only [DedupProviderSliceArena.allocList, Option.bind_eq_bind,
      Option.bind_eq_some] at h
    obtain ⟨⟨a1, s⟩, hstep, h⟩ := h
    obtain ⟨⟨a2, ss2⟩, hrest, h⟩ := h
    simp only [Option.some.injEq, Prod.mk.injEq] at h
    obtain ⟨rfl, rfl⟩ := h
    obtain ⟨hwf1, hmem1, hpres1, -⟩ :=
      DedupProviderSliceArena.alloc_step a xs a1 s hwf hstep
    obtain ⟨hwf2, hpres2, hget2⟩ := ih a1 _ _ hwf1 hrest
    refine ⟨hwf2, fun e he => hpres2 e (hpres1 e he), ?_⟩
    intro i xsi hi
    cases i with
    | zero =>
      simp only [List.get?_cons_zero, Option.some.injEq] at hi
      subst hi
      exact ⟨s, rfl, hpres2 _ hmem1⟩
    | succ i =>
      simp only [List.get?_cons_succ] at hi ⊢
      exact hget2 i xsi hi

theorem DedupProviderSliceArena.emptyArena_wf :
    DedupProviderSliceArena.emptyArena.WF :=
  ⟨fun k s h => by simp [DedupProviderSliceArena.emptyArena] at h,
   List.Pairwise.nil⟩

/-- C7: allocating on a fresh dedup arena, every returned handle
resolves (in the final arena) to the sequence that was allocated; two
calls with element-wise-equal sequences return equal handles, and two
calls with different sequences always return different handles. -/
theorem c7_dedup_arena_alloc (xss : List (List ExecProvider))
    (a : DedupProviderSliceArena) (ss : List ExecProviderSlice)
    (h : DedupProviderSliceArena.emptyArena.allocList xss = some (a, ss))
    (i j : Nat) (xi xj : List ExecProvider) (si sj : ExecProviderSlice)
    (hxi : xss.get? i = some xi) (hxj : xss.get? j = some xj)
    (hsi : ss.get? i = some si) (hsj : ss.get? j = some sj) :
    a.resolve si = some xi ∧
    (xi = xj → si = sj ∧ a.resolve si = a.resolve sj) ∧
    (xi ≠ xj → si ≠ sj) := by
  obtain ⟨hwf, -, hget⟩ := DedupProviderSliceArena.allocChain_spec xss
    DedupProviderSliceArena.emptyArena a ss
    DedupProviderSliceArena.emptyArena_wf h
  obtain ⟨si', hsi', hmi⟩ := hget i xi hxi
  obtain ⟨sj', hsj', hmj⟩ := hget j xj hxj
  rw [hsi] at hsi'
  rw [hsj] at hsj'
  obtain rfl := Option.some.inj hsi'
  obtain rfl := Option.some.inj hsj'
  have hri : a.resolve si = some xi := hwf.1 xi si hmi
  have hrj : a.resolve sj = some xj := hwf.1 xj sj hmj
  refine ⟨hri, ?_, ?_⟩
  · intro hx
    subst hx
    have : si = sj := unique_key_mem a.dedup hwf.2 xi si sj hmi hmj
    exact ⟨this, by rw [this]⟩
  · intro hx hc
    rw [hc, hrj] at hri
    exact hx (Option.some.inj hri).symm

/-- C7 witness: three allocations where the first and third sequences
are equal and the second differs. -/
theorem c7_dedup_arena_alloc_witness :
    (DedupProviderSliceArena.emptyArena.allocList [[⟨1⟩], [⟨2⟩], [⟨1⟩]] =
      some (⟨[([⟨2⟩], ⟨1, 1⟩), ([⟨1⟩], ⟨0, 1⟩)], [⟨1⟩, ⟨2⟩]⟩,
        [⟨0, 1⟩, ⟨1, 1⟩, ⟨0, 1⟩])) ∧
    ((DedupProviderSliceArena.resolve
        ⟨[([⟨2⟩], ⟨1, 1⟩), ([⟨1⟩], ⟨0, 1⟩)], [⟨1⟩, ⟨2⟩]⟩ ⟨0, 1⟩ =
      some [⟨1⟩]) ∧
      (([⟨1⟩] : List ExecProvider) = [⟨1⟩] →
        (⟨0, 1⟩ : ExecProviderSlice) = ⟨0, 1⟩ ∧
        DedupProviderSliceArena.resolve
          ⟨[([⟨2⟩], ⟨1, 1⟩), ([⟨1⟩], ⟨0, 1⟩)], [⟨1⟩, ⟨2⟩]⟩ ⟨0, 1⟩ =
        DedupProviderSliceArena.resolve
          ⟨[([⟨2⟩], ⟨1, 1⟩), ([⟨1⟩], ⟨0, 1⟩)], [⟨1⟩, ⟨2⟩]⟩ ⟨0, 1⟩) ∧
      (([⟨1⟩] : List ExecProvider) ≠ [⟨1⟩] →
        (⟨0, 1⟩ : ExecProviderSlice) ≠ ⟨0, 1⟩)) ∧
    ((DedupProviderSliceArena.resolve
        ⟨[([⟨2⟩], ⟨1, 1⟩), ([⟨1⟩], ⟨0, 1⟩)], [⟨1⟩, ⟨2⟩]⟩ ⟨0, 1⟩ =
      some [⟨1⟩]) ∧
      (([⟨1⟩] : List ExecProvider) = [⟨2⟩] →
        (⟨0, 1⟩ : ExecProviderSlice) = ⟨1, 1⟩ ∧
        DedupProviderSliceArena.resolve
          ⟨[([⟨2⟩], ⟨1, 1⟩), ([⟨1⟩], ⟨0, 1⟩)], [⟨1⟩, ⟨2⟩]⟩ ⟨0, 1⟩ =
        DedupProviderSliceArena.resolve
          ⟨[([⟨2⟩], ⟨1, 1⟩), ([⟨1⟩], ⟨0, 1⟩)], [⟨1⟩, ⟨2⟩]⟩ ⟨1, 1⟩) ∧
      (([⟨1⟩] : List ExecProvider) ≠ [⟨2⟩] →
        (⟨0, 1⟩ : ExecProviderSlice) ≠ ⟨1, 1⟩)) :=
  ⟨by decide,
   c7_dedup_arena_alloc [[⟨1⟩], [⟨2⟩], [⟨1⟩]]
     ⟨[([⟨2⟩], ⟨1, 1⟩), ([⟨1⟩], ⟨0, 1⟩)], [⟨1⟩, ⟨2⟩]⟩
     [⟨0, 1⟩, ⟨1, 1⟩, ⟨0, 1⟩] (by decide) 0 2
     [⟨1⟩] [⟨1⟩] ⟨0, 1⟩ ⟨0, 1⟩ (by decide) (by decide) (by decide) (by decide),
   c7_dedup_arena_alloc [[⟨1⟩], [⟨2⟩], [⟨1⟩]]
     ⟨[([⟨2⟩], ⟨1, 1⟩), ([⟨1⟩], ⟨0, 1⟩)], [⟨1⟩, ⟨2⟩]⟩
     [⟨0, 1⟩, ⟨1, 1⟩, ⟨0, 1⟩] (by decide) 0 1
     [⟨1⟩] [⟨2⟩] ⟨0, 1⟩ ⟨1, 1⟩ (by decide) (by decide) (by decide) (by decide)⟩


/-! ### Function builder lemmas -/

theorem applyReloc_length (pc : Nat) (insts : List Instruction) (r : Reloc) :
    (applyReloc pc insts r).length = insts.length := by
  cases r <;> simp [applyReloc]

theorem foldl_applyReloc_length (pc : Nat) (pending : List Reloc) :
    ∀ insts : List Instruction,
      (pending.foldl (applyReloc pc) insts).length = insts.length := by
  induction pending with
  | nil => intro insts; rfl
  | cons r rs ih =>
    intro insts
    rw [List.foldl_cons, ih, applyReloc_length]

theorem resolveLabel_insts_length (b : InstructionsBuilder) (lbl : Nat)
    (b2 : InstructionsBuilder) (h : b.resolveLabel lbl = some b2) :
    b2.insts.length = b.insts.length := by
  unfold InstructionsBuilder.resolveLabel at h
  split at h
  · injection h with h
    subst h
    exact foldl_applyReloc_length _ _ _
  · simp at h

/-- C1: the spec's claim that `compute_drop_keep` yields keep = R and
drop = (C − H) − R, without a fatal assertion, for all C > H with
R ≤ C − H fails on the code: the assertion `keep < height_diff` is
strict, so at C = 1, H = 0, R = 1 — a branch out of a block carrying
its single result with nothing to drop, which the spec's non-strict
"keep must not exceed the height difference" admits — the builder hits
the fatal assertion instead of returning (drop 0, keep 1). With one
more stack slot (C = 2, H = 0, R = 1) the strict assertion passes and
the claimed formula keep = R, drop = (C − H) − R does hold. -/
theorem c1_compute_drop_keep_strict_assertion :
    (FunctionBuilder.computeDropKeep
      { funcParams := [], funcResults := [], globals := []
        controlFrames := [.block ⟨[], [.i32]⟩ 0 0]
        valueStack := [.i32]
        instBuilder := ⟨[.unresolved []], []⟩
        locals := ⟨[]⟩
        reachable := true } 0 = none) ∧
    (FunctionBuilder.computeDropKeep
      { funcParams := [], funcResults := [], globals := []
        controlFrames := [.block ⟨[], [.i32]⟩ 0 0]
        valueStack := [.i32, .i32]
        instBuilder := ⟨[.unresolved []], []⟩
        locals := ⟨[]⟩
        reachable := true } 0 = some ⟨1, 1⟩) :=
  ⟨by decide, by decide⟩

/-- C5: when `translate_end` pops the last control frame while the code
is reachable, it appends exactly one instruction — a `Return` with
drop-keep (0, 0) — regardless of the function's locals, parameters or
result arity (label resolution may patch earlier branch instructions in
place but never changes their number). -/
theorem c5_implicit_return_zero_drop_keep (b b' : FunctionBuilder)
    (frame : ControlFrame) (hframes : b.controlFrames = [frame])
    (hr : b.reachable = true) (h : b.translateEnd = some b') :
    ∃ patched : List Instruction,
      patched.length = b.instBuilder.insts.length ∧
      b'.instBuilder.insts = patched ++ [.ret ⟨0, 0⟩] := by
  unfold FunctionBuilder.translateEnd at h
  rw [hframes] at h
  cases frame with
  | block bt endLabel height =>
    simp [ControlFrame.kind, ControlFrame.endLabel?, hr] at h
    obtain ⟨ib2, hres, hb⟩ := Option.bind_eq_some.mp h
    injection hb with hb
    subst hb
    exact ⟨ib2.insts, resolveLabel_insts_length _ _ _ hres, rfl⟩
  | loop bt header height =>
    simp [ControlFrame.kind, hr] at h
    subst h
    exact ⟨b.instBuilder.insts, rfl, rfl⟩
  | if_ bt endLabel elseLabel height =>
    simp [ControlFrame.kind, ControlFrame.endLabel?, hr] at h
    obtain ⟨ib1, hres1, h⟩ := Option.bind_eq_some.mp h
    obtain ⟨ib2, hres2, hb⟩ := Option.bind_eq_some.mp h
    injection hb with hb
    subst hb
    refine ⟨ib2.insts, ?_, rfl⟩
    rw [resolveLabel_insts_length _ _ _ hres2,
      resolveLabel_insts_length _ _ _ hres1]
  | unreachableFrame k bt height =>
    cases k with
    | block =>
      simp [ControlFrame.kind, ControlFrame.endLabel?, hr] at h
    | if_ =>
      simp [ControlFrame.kind, ControlFrame.endLabel?, hr] at h
    | loop =>
      simp [ControlFrame.kind, hr] at h
      subst h
      exact ⟨b.instBuilder.insts, rfl, rfl⟩

/-- C5 witness: ending the outermost function-body block of an empty
function emits exactly the implicit `Return` with drop-keep (0, 0). -/
theorem c5_implicit_return_zero_drop_keep_witness :
    ((mkFunctionBuilder [] [] []).controlFrames =
      [ControlFrame.block ⟨[], []⟩ 0 0]) ∧
    ((mkFunctionBuilder [] [] []).reachable = true) ∧
    ((mkFunctionBuilder [] [] []).translateEnd = some
      { funcParams := [], funcResults := [], globals := []
        controlFrames := []
        valueStack := []
        instBuilder := ⟨[.resolved 0], [.ret ⟨0, 0⟩]⟩
        locals := ⟨[]⟩
        reachable := true }) ∧
    (∃ patched : List Instruction,
      patched.length = (mkFunctionBuilder [] [] []).instBuilder.insts.length ∧
      (⟨[.resolved 0], [.ret ⟨0, 0⟩]⟩ : InstructionsBuilder).insts =
        patched ++ [.ret ⟨0, 0⟩]) :=
  ⟨by decide, by decide, by decide,
   c5_implicit_return_zero_drop_keep (mkFunctionBuilder [] [] [])
     { funcParams := [], funcResults := [], globals := []
       controlFrames := []
       valueStack := []
       instBuilder := ⟨[.resolved 0], [.ret ⟨0, 0⟩]⟩
       locals := ⟨[]⟩
       reachable := true }
     (ControlFrame.block ⟨[], []⟩ 0 0) (by decide) (by decide) (by decide)⟩

/-- C2: in reachable code, `translate_return` emits exactly one
`Return` instruction whose drop-keep is that of a branch to depth
(frame stack length − 1) with the locals count (the registry count,
which includes the registered parameters — see C10) and the parameter
count added to its drop and the same keep; translation then becomes
unreachable. -/
theorem c2_translate_return_drop_keep (b b' : FunctionBuilder)
    (hr : b.reachable = true) (h : b.translateReturn = some b') :
    ∃ base : DropKeep,
      b.computeDropKeep (b.controlFrames.length - 1) = some base ∧
      b'.instBuilder.insts = b.instBuilder.insts ++
        [.ret ⟨base.drop + b.locals.lenRegistered + b.funcParams.length,
          base.keep⟩] ∧
      b'.reachable = false := by
  unfold FunctionBuilder.translateReturn FunctionBuilder.translateIfReachable
    FunctionBuilder.dropKeepReturn at h
  simp [hr] at h
  split at h
  · simp at h
  · obtain ⟨dk, hdk, hb⟩ := Option.bind_eq_some.mp h
    obtain ⟨base, hbase, hg⟩ := Option.bind_eq_some.mp hdk
    injection hg with hg
    subst hg
    injection hb with hb
    subst hb
    exact ⟨base, hbase, rfl, rfl⟩

/-- C2 witness: a function with one i32 parameter and one declared i32
local, returning at stack height 2: the branch to the maximal depth
contributes (drop 1, keep 1) and the emitted `Return` drops
1 + 2 + 1 = 4 (branch drop + registered locals count + parameter
count). -/
theorem c2_translate_return_drop_keep_witness :
    (FunctionBuilder.reachable
      { funcParams := [.i32], funcResults := [.i32], globals := []
        controlFrames := [.block ⟨[.i32], [.i32]⟩ 0 0]
        valueStack := [.i32, .i32]
        instBuilder := ⟨[.unresolved []], [.constant (.i32 7)]⟩
        locals := ⟨[(.i32, 1), (.i32, 1)]⟩
        reachable := true } = true) ∧
    (FunctionBuilder.translateReturn
      { funcParams := [.i32], funcResults := [.i32], globals := []
        controlFrames := [.block ⟨[.i32], [.i32]⟩ 0 0]
        valueStack := [.i32, .i32]
        instBuilder := ⟨[.unresolved []], [.constant (.i32 7)]⟩
        locals := ⟨[(.i32, 1), (.i32, 1)]⟩
        reachable := true } = some
      { funcParams := [.i32], funcResults := [.i32], globals := []
        controlFrames := [.block ⟨[.i32], [.i32]⟩ 0 0]
        valueStack := [.i32, .i32]
        instBuilder := ⟨[.unresolved []],
          [.constant (.i32 7), .ret ⟨4, 1⟩]⟩
        locals := ⟨[(.i32, 1), (.i32, 1)]⟩
        reachable := false }) ∧
    (∃ base : DropKeep,
      FunctionBuilder.computeDropKeep
        { funcParams := [.i32], funcResults := [.i32], globals := []
          controlFrames := [.block ⟨[.i32], [.i32]⟩ 0 0]
          valueStack := [.i32, .i32]
          instBuilder := ⟨[.unresolved []], [.constant (.i32 7)]⟩
          locals := ⟨[(.i32, 1), (.i32, 1)]⟩
          reachable := true } 0 = some base ∧
      ([Instruction.constant (.i32 7), .ret ⟨4, 1⟩] : List Instruction) =
        [Instruction.constant (.i32 7)] ++
          [.ret ⟨base.drop + 2 + 1, base.keep⟩] ∧
      false = false) :=
  ⟨rfl, by decide, by
   exact c2_translate_return_drop_keep
     { funcParams := [.i32], funcResults := [.i32], globals := []
       controlFrames := [.block ⟨[.i32], [.i32]⟩ 0 0]
       valueStack := [.i32, .i32]
       instBuilder := ⟨[.unresolved []], [.constant (.i32 7)]⟩
       locals := ⟨[(.i32, 1), (.i32, 1)]⟩
       reachable := true }
     { funcParams := [.i32], funcResults := [.i32], globals := []
       controlFrames := [.block ⟨[.i32], [.i32]⟩ 0 0]
       valueStack := [.i32, .i32]
       instBuilder := ⟨[.unresolved []],
         [.constant (.i32 7), .ret ⟨4, 1⟩]⟩
       locals := ⟨[(.i32, 1), (.i32, 1)]⟩
       reachable := false }
     rfl (by decide)⟩

/-- C3 counterexample: with the reachability flag false and an i32 on
the compile-time value stack, `translate_if` pops the condition before
checking reachability: the value stack shrinks from [i32] to [], so not
every translate method invoked while unreachable leaves the
compile-time value stack unchanged. -/
theorem c3_unreachable_translate_counterexample :
    FunctionBuilder.translateIf
      { funcParams := [], funcResults := [], globals := []
        controlFrames := [.block ⟨[], []⟩ 0 0]
        valueStack := [.i32]
        instBuilder := ⟨[.unresolved []], []⟩
        locals := ⟨[]⟩
        reachable := false } ⟨[], []⟩ = some
      { funcParams := [], funcResults := [], globals := []
        controlFrames := [.unreachableFrame .if_ ⟨[], []⟩ 0,
          .block ⟨[], []⟩ 0 0]
        valueStack := []
        instBuilder := ⟨[.unresolved []], []⟩
        locals := ⟨[]⟩
        reachable := false } ∧
    ([] : List ValueType) ≠ [.i32] :=
  ⟨by decide, by decide⟩

/-- C3 amended: when the reachability flag is false, every modelled
translate method emits no instruction, and all the methods guarded by
`translate_if_reachable` are complete no-ops; however `translate_if`
still pops the condition off the compile-time value stack (pushing an
unreachable frame), `translate_block`/`translate_loop` push an
unreachable frame (leaving stack and instructions untouched),
`translate_else` leaves the state unchanged, and `translate_end` pops a
frame and shrinks the value stack without emitting. -/
theorem c3_unreachable_translate_amended (b : FunctionBuilder)
    (hr : b.reachable = false) :
    b.translateUnreachable = some b ∧
    (∀ d, b.translateBr d = some b) ∧
    (∀ d, b.translateBrIf d = some b) ∧
    (∀ dd ts, b.translateBrTable dd ts = some b) ∧
    b.translateReturn = some b ∧
    (∀ i, b.translateCall i = some b) ∧
    (∀ ft ti, b.translateCallIndirect ft ti = some b) ∧
    b.translateDrop = some b ∧
    b.translateSelect = some b ∧
    (∀ i, b.translateLocalGet i = some b) ∧
    (∀ i, b.translateLocalSet i = some b) ∧
    (∀ i, b.translateLocalTee i = some b) ∧
    (∀ g, b.translateGlobalGet g = some b) ∧
    (∀ g, b.translateGlobalSet g = some b) ∧
    (∀ m o t f, b.translateLoad m o t f = some b) ∧
    (∀ m o t f, b.translateStore m o t f = some b) ∧
    (∀ m, b.translateMemorySize m = some b) ∧
    (∀ m, b.translateMemoryGrow m = some b) ∧
    (∀ v, b.translateConst v = some b) ∧
    (∀ t i, b.translateUnaryCmp t i = some b) ∧
    (∀ t i, b.translateBinaryCmp t i = some b) ∧
    (∀ bt b', b.translateBlock bt = some b' →
      b'.instBuilder = b.instBuilder ∧ b'.valueStack = b.valueStack) ∧
    (∀ bt b', b.translateLoop bt = some b' →
      b'.instBuilder = b.instBuilder ∧ b'.valueStack = b.valueStack) ∧
    (∀ bt b', b.translateIf bt = some b' →
      b'.instBuilder = b.instBuilder ∧
      b'.valueStack = b.valueStack.tail ∧ b.valueStack ≠ []) ∧
    (∀ b', b.translateElse = some b' → b' = b) ∧
    (∀ b', b.translateEnd = some b' →
      b'.instBuilder.insts.length = b.instBuilder.insts.length) := by
  refine ⟨?_, ?_, ?_, ?_, ?_, ?_, ?_, ?_, ?_, ?_, ?_, ?_, ?_, ?_, ?_,
    ?_, ?_, ?_, ?_, ?_, ?_, ?_, ?_, ?_, ?_, ?_⟩
  · simp [FunctionBuilder.translateUnreachable,
      FunctionBuilder.translateIfReachable, hr]
  · intro d
    simp [FunctionBuilder.translateBr,
      FunctionBuilder.translateIfReachable, hr]
  · intro d
    simp [FunctionBuilder.translateBrIf,
      FunctionBuilder.translateIfReachable, hr]
  · intro dd ts
    simp [FunctionBuilder.translateBrTable,
      FunctionBuilder.translateIfReachable, hr]
  · simp [FunctionBuilder.translateReturn,
      FunctionBuilder.translateIfReachable, hr]
  · intro i
    simp [FunctionBuilder.translateCall,
      FunctionBuilder.translateIfReachable, hr]
  · intro ft ti
    simp [FunctionBuilder.translateCallIndirect,
      FunctionBuilder.translateIfReachable, hr]
  · simp [FunctionBuilder.translateDrop,
      FunctionBuilder.translateIfReachable, hr]
  · simp [FunctionBuilder.translateSelect,
      FunctionBuilder.translateIfReachable, hr]
  · intro i
    simp [FunctionBuilder.translateLocalGet,
      FunctionBuilder.translateIfReachable, hr]
  · intro i
    simp [FunctionBuilder.translateLocalSet,
      FunctionBuilder.translateIfReachable, hr]
  · intro i
    simp [FunctionBuilder.translateLocalTee,
      FunctionBuilder.translateIfReachable, hr]
  · intro g
    simp [FunctionBuilder.translateGlobalGet,
      FunctionBuilder.translateIfReachable, hr]
  · intro g
    simp [FunctionBuilder.translateGlobalSet,
      FunctionBuilder.translateIfReachable, hr]
  · intro m o t f
    simp [FunctionBuilder.translateLoad,
      FunctionBuilder.translateIfReachable, hr]
  · intro m o t f
    simp [FunctionBuilder.translateStore,
      FunctionBuilder.translateIfReachable, hr]
  · intro m
    simp [FunctionBuilder.translateMemorySize,
      FunctionBuilder.translateIfReachable, hr]
  · intro m
    simp [FunctionBuilder.translateMemoryGrow,
      FunctionBuilder.translateIfReachable, hr]
  · intro v
    simp [FunctionBuilder.translateConst,
      FunctionBuilder.translateIfReachable, hr]
  · intro t i
    simp [FunctionBuilder.translateUnaryCmp,
      FunctionBuilder.translateIfReachable, hr]
  · intro t i
    simp [FunctionBuilder.translateBinaryCmp,
      FunctionBuilder.translateIfReachable, hr]
  · intro bt b' h
    simp [FunctionBuilder.translateBlock, hr] at h
    subst h
    exact ⟨rfl, rfl⟩
  · intro bt b' h
    simp [FunctionBuilder.translateLoop, hr] at h
    subst h
    exact ⟨rfl, rfl⟩
  · intro bt b' h
    unfold FunctionBuilder.translateIf at h
    cases hv : b.valueStack with
    | nil => simp [hv, stackPop1] at h
    | cons t ts =>
      simp [hv, stackPop1, hr] at h
      subst h
      exact ⟨rfl, by simp, by simp⟩
  · intro b' h
    unfold FunctionBuilder.translateElse at h
    rw [hr] at h
    simp only [Bool.false_eq_true, if_false] at h
    split at h
    · injection h with h
      exact h.symm
    · simp at h
  · intro b' h
    unfold FunctionBuilder.translateEnd at h
    cases hf : b.controlFrames with
    | nil => rw [hf] at h; simp at h
    | cons frame rest =>
      rw [hf] at h
      cases frame with
      | block bt endLabel height =>
        simp [ControlFrame.kind, ControlFrame.endLabel?, hr] at h
        obtain ⟨ib2, hres, hb⟩ := Option.bind_eq_some.mp h
        injection hb with hb
        subst hb
        exact resolveLabel_insts_length _ _ _ hres
      | loop bt header height =>
        simp [ControlFrame.kind, hr] at h
        subst h
        rfl
      | if_ bt endLabel elseLabel height =>
        simp [ControlFrame.kind, ControlFrame.endLabel?, hr] at h
        obtain ⟨ib1, hres1, h⟩ := Option.bind_eq_some.mp h
        obtain ⟨ib2, hres2, hb⟩ := Option.bind_eq_some.mp h
        injection hb with hb
        subst hb
        exact (resolveLabel_insts_length _ _ _ hres2).trans
          (resolveLabel_insts_length _ _ _ hres1)
      | unreachableFrame k bt height =>
        cases k with
        | block =>
          simp [ControlFrame.kind, ControlFrame.endLabel?, hr] at h
        | if_ =>
          simp [ControlFrame.kind, ControlFrame.endLabel?, hr] at h
        | loop =>
          simp [ControlFrame.kind, hr] at h
          subst h
          rfl

/-- C3 amended witness: at a concrete unreachable state with one i32 on
the stack, a guarded method (br) is a no-op and `translate_if` pops the
condition without emitting. -/
theorem c3_unreachable_translate_amended_witness :
    (FunctionBuilder.reachable
      { funcParams := [], funcResults := [], globals := []
        controlFrames := [.block ⟨[], []⟩ 0 0]
        valueStack := [.i32]
        instBuilder := ⟨[.unresolved []], []⟩
        locals := ⟨[]⟩
        reachable := false } = false) ∧
    (FunctionBuilder.translateBr
      { funcParams := [], funcResults := [], globals := []
        controlFrames := [.block ⟨[], []⟩ 0 0]
        valueStack := [.i32]
        instBuilder := ⟨[.unresolved []], []⟩
        locals := ⟨[]⟩
        reachable := false } 0 = some
      { funcParams := [], funcResults := [], globals := []
        controlFrames := [.block ⟨[], []⟩ 0 0]
        valueStack := [.i32]
        instBuilder := ⟨[.unresolved []], []⟩
        locals := ⟨[]⟩
        reachable := false }) :=
  ⟨rfl,
   (c3_unreachable_translate_amended
     { funcParams := [], funcResults := [], globals := []
       controlFrames := [.block ⟨[], []⟩ 0 0]
       valueStack := [.i32]
       instBuilder := ⟨[.unresolved []], []⟩
       locals := ⟨[]⟩
       reachable := false } rfl).2.1 0⟩

/-- C4: concrete runs of reachability propagation. Translating
`unreachable`, an unconditional `br`, a `br_table` or `return` while
reachable sets the flag to false, and `end` restores it to true exactly
when the popped frame was pushed reachable. For `else` the claim fails
on the code: after translating `if` then `unreachable` (a then-arm
ending unreachable under an `if` frame that was pushed while
reachable), `translate_else` hits its fatal `panic!` — it only accepts
an unreachable `if` frame on top — instead of restoring reachability,
contradicting the `reachable` field's own documentation ("Visiting the
Wasm `Else` or `End` control flow operator resets reachability to
`true` again", mod.rs lines 59-62); an `else` under an unreachable
`if` frame leaves the flag false. -/
theorem c4_reachability_propagation :
    (((mkFunctionBuilder [] [] []).translateUnreachable).map
      FunctionBuilder.reachable = some false) ∧
    ((({ mkFunctionBuilder [] [] [] with
        valueStack := [.i32] }).translateBr 0).map
      FunctionBuilder.reachable = some false) ∧
    ((({ mkFunctionBuilder [] [] [] with
        valueStack := [.i32, .i32] }).translateBrTable 0 []).map
      FunctionBuilder.reachable = some false) ∧
    ((({ mkFunctionBuilder [] [] [] with
        valueStack := [.i32] }).translateReturn).map
      FunctionBuilder.reachable = some false) ∧
    (((do
      let b1 ← (mkFunctionBuilder [] [] []).translateBlock ⟨[], []⟩
      let b2 ← b1.translateUnreachable
      b2.translateEnd : Option FunctionBuilder)).map
      FunctionBuilder.reachable = some true) ∧
    (((do
      let b1 ← (mkFunctionBuilder [] [] []).translateUnreachable
      let b2 ← b1.translateLoop ⟨[], []⟩
      b2.translateEnd : Option FunctionBuilder)).map
      FunctionBuilder.reachable = some false) ∧
    ((do
      let b1 ← (mkFunctionBuilder [] [] []).translateConst (.i32 0)
      let b2 ← b1.translateIf ⟨[], []⟩
      let b3 ← b2.translateUnreachable
      b3.translateElse : Option FunctionBuilder) = none) ∧
    (((do
      let b1 ← (mkFunctionBuilder [] [] []).translateConst (.i32 0)
      let b2 ← b1.translateUnreachable
      let b3 ← b2.translateIf ⟨[], []⟩
      b3.translateElse : Option FunctionBuilder)).map
      FunctionBuilder.reachable = some false) :=
  ⟨by decide, by decide, by decide, by decide, by decide, by decide,
   by decide, by decide⟩

theorem registerLocals_len (r : LocalsRegistry) (t : ValueType) (n : Nat) :
    (r.registerLocals t n).lenRegistered = r.lenRegistered + n := by
  simp [LocalsRegistry.registerLocals, LocalsRegistry.lenRegistered]

theorem foldl_register_len (ps : List ValueType) :
    ∀ r : LocalsRegistry,
      (ps.foldl (fun r t => r.registerLocals t 1) r).lenRegistered =
        r.lenRegistered + ps.length := by
  induction ps with
  | nil => intro r; simp
  | cons p ps ih =>
    intro r
    rw [List.foldl_cons, ih, registerLocals_len]
    simp [Nat.add_assoc, Nat.add_comm 1 ps.length]

theorem foldl_push_length (ps : List ValueType) :
    ∀ s : List ValueType,
      (ps.foldl (fun s t => t :: s) s).length = s.length + ps.length := by
  induction ps with
  | nil => intro s; simp
  | cons p ps ih =>
    intro s
    rw [List.foldl_cons, ih]
    simp [Nat.add_comm 1 ps.length, Nat.add_assoc]

theorem translateLocalsList_spec (locs : List (Nat × ValueType)) :
    ∀ b : FunctionBuilder,
      (b.translateLocalsList locs).funcParams = b.funcParams ∧
      (b.translateLocalsList locs).controlFrames = b.controlFrames ∧
      (b.translateLocalsList locs).valueStack = b.valueStack ∧
      (b.translateLocalsList locs).locals.lenRegistered =
        b.locals.lenRegistered + (locs.map Prod.fst).sum := by
  induction locs with
  | nil =>
    intro b
    simp [FunctionBuilder.translateLocalsList]
  | cons p rest ih =>
    intro b
    obtain ⟨n, t⟩ := p
    obtain ⟨h1, h2, h3, h4⟩ := ih (b.translateLocals n t)
    refine ⟨?_, ?_, ?_, ?_⟩
    · exact h1
    · exact h2
    · exact h3
    · rw [FunctionBuilder.translateLocalsList, h4]
      simp [FunctionBuilder.translateLocals, registerLocals_len]
      omega

theorem mk_controlFrames (params results globals : List ValueType) :
    (mkFunctionBuilder params results globals).controlFrames =
      [ControlFrame.block ⟨params, results⟩ 0 0] := rfl

theorem mk_valueStack_length (params results globals : List ValueType) :
    (mkFunctionBuilder params results globals).valueStack.length =
      params.length := by
  show (params.foldl (fun s t => t :: s) []).length = params.length
  simp [foldl_push_length params []]

theorem mk_lenRegistered (params results globals : List ValueType) :
    (mkFunctionBuilder params results globals).locals.lenRegistered =
      params.length := by
  show (params.foldl (fun r t => r.registerLocals t 1)
    LocalsRegistry.emptyRegistry).lenRegistered = params.length
  have := foldl_register_len params LocalsRegistry.emptyRegistry
  simpa [LocalsRegistry.emptyRegistry, LocalsRegistry.lenRegistered]
    using this

/-- C10: after building a function with P parameters and registering L
locals through any sequence of `translate_locals` calls, the locals
registry counts P + L registered locals (the parameters are themselves
registered at construction time), and this registered count — not just
the declared locals — is the locals count used by `drop_keep_return`
and `relative_local_depth`. -/
theorem c10_locals_registry_count (params results globals : List ValueType)
    (locs : List (Nat × ValueType))
    (hbound : params.length + params.length +
      (params.length + (locs.map Prod.fst).sum) ≤ 4294967295) :
    ((mkFunctionBuilder params results globals).translateLocalsList
        locs).locals.lenRegistered =
      params.length + (locs.map Prod.fst).sum ∧
    ((mkFunctionBuilder params results globals).translateLocalsList
        locs).dropKeepReturn =
      (((mkFunctionBuilder params results globals).translateLocalsList
          locs).computeDropKeep 0).map
        (fun dk => ⟨dk.drop + (params.length + (locs.map Prod.fst).sum) +
          params.length, dk.keep⟩) ∧
    ∀ idx, idx ≤ params.length + params.length +
        (params.length + (locs.map Prod.fst).sum) →
      ((mkFunctionBuilder params results globals).translateLocalsList
          locs).relativeLocalDepth idx =
        some (params.length + params.length +
          (params.length + (locs.map Prod.fst).sum) - idx) := by
  obtain ⟨hp, hf, hv, hl⟩ := translateLocalsList_spec locs
    (mkFunctionBuilder params results globals)
  have hlen : ((mkFunctionBuilder params results globals).translateLocalsList
      locs).locals.lenRegistered =
      params.length + (locs.map Prod.fst).sum := by
    rw [hl, mk_lenRegistered]
  have hparams : ((mkFunctionBuilder params results
      globals).translateLocalsList locs).funcParams = params := hp
  have hframes : ((mkFunctionBuilder params results
      globals).translateLocalsList locs).controlFrames =
      [ControlFrame.block ⟨params, results⟩ 0 0] := by
    rw [hf, mk_controlFrames]
  have hvlen : ((mkFunctionBuilder params results
      globals).translateLocalsList locs).valueStack.length =
      params.length := by
    rw [hv, mk_valueStack_length]
  refine ⟨hlen, ?_, ?_⟩
  · unfold FunctionBuilder.dropKeepReturn
    rw [hframes]
    simp only [List.isEmpty_cons, List.length_cons, List.length_nil,
      Bool.false_eq_true, if_false]
    cases hdk : ((mkFunctionBuilder params results
        globals).translateLocalsList locs).computeDropKeep 0 with
    | none => simp [hdk]
    | some dk => simp [hdk, hlen, hparams]
  · intro idx hidx
    unfold FunctionBuilder.relativeLocalDepth
    rw [hvlen, hparams, hlen]
    rw [if_pos ⟨hbound, hidx⟩]

/-- C10 witness: one i32 parameter and one group of two i64 locals give
a registered count of 3 = 1 + 2, used by `drop_keep_return` and
`relative_local_depth`. -/
theorem c10_locals_registry_count_witness :
    (1 + 1 + (1 + ([((2 : Nat), ValueType.i64)].map Prod.fst).sum) ≤
      4294967295) ∧
    (((mkFunctionBuilder [.i32] [] []).translateLocalsList
        [(2, .i64)]).locals.lenRegistered =
      1 + ([((2 : Nat), ValueType.i64)].map Prod.fst).sum ∧
    ((mkFunctionBuilder [.i32] [] []).translateLocalsList
        [(2, .i64)]).dropKeepReturn =
      (((mkFunctionBuilder [.i32] [] []).translateLocalsList
          [(2, .i64)]).computeDropKeep 0).map
        (fun dk => ⟨dk.drop +
          (1 + ([((2 : Nat), ValueType.i64)].map Prod.fst).sum) + 1,
          dk.keep⟩) ∧
    ∀ idx, idx ≤ 1 + 1 + (1 + ([((2 : Nat), ValueType.i64)].map
        Prod.fst).sum) →
      ((mkFunctionBuilder [.i32] [] []).translateLocalsList
          [(2, .i64)]).relativeLocalDepth idx =
        some (1 + 1 + (1 + ([((2 : Nat), ValueType.i64)].map
          Prod.fst).sum) - idx)) :=
  ⟨by decide, by
    exact c10_locals_registry_count [.i32] [] [] [(2, .i64)] (by decide)⟩
